import Mathlib

/-!
Verification of the MFSR document pipeline (scraper + identifier assigner).

This file shallowly embeds the two core algorithmic pieces of the repository:

* `create_unique_ids` (src/create_unique_ids.py): per-sector chronological
  identifier assignment over a tabular record set, with a randomized order for
  records lacking a parseable date.

* `scrape_sector_page` and its helpers `determine_document_type`,
  `extract_date_and_size`, `is_pdf_link` and the `size_re` / `date_re` regex
  searches (src/complete_mfsr_scraper.py): the structural extractor walking an
  ordered sequence of page nodes.

Modelling conventions:

* A pandas `DataFrame` row becomes a `Row`; row labels are list positions.
* `DataFrame.sort_values('Date_parsed', na_position='last')` is modelled per
  pandas' documented contract: the non-null part is reordered by a
  key-nondecreasing permutation and nulls are appended in original order.
  The default sort kind (`quicksort`) does not document a tie order, so the
  permutation on the non-null part is an explicit parameter `srt` constrained
  by `SortsByDate` (permutation + sorted by parsed date), exactly the
  guarantee pandas gives for every kind.
* The module-global `random` generator state is modelled as a stream of
  natural-number draws (`List Nat`); `random.shuffle` consumes one draw per
  exchange, reduced modulo the exchange range, and returns the advanced
  stream.  `create_unique_ids` threads this ambient state explicitly.
* `print` output of `create_unique_ids` is modelled as a `LogEntry` trace.
* Fallible BeautifulSoup text accessors (`get_text`) are modelled as
  `Except Unit String`; the page-level `try/except` of `scrape_sector_page`
  becomes an `Except`-valued walk whose error case yields `[]`.
-/

/-- One input record, with the columns of the scraped dataset
`["Sector", "Project Name", "Type", "URL", "Date", "File Size"]`. -/
structure Row where
  sector : String
  projectName : String
  typeLabel : String
  url : String
  date : String
  fileSize : String
deriving DecidableEq

/-- One output record of `create_unique_ids`: the input columns plus the
added `Document_ID` column (the transient `Date_parsed` column is dropped
before return, hence absent here). -/
structure RowOut where
  base : Row
  documentId : String
deriving DecidableEq

/-- An indexed row: the row together with its positional label. -/
abbrev IRow := Nat × Row

/-- Positional enumeration of the rows, starting at `n` (the DataFrame's
integer index). -/
def enumF : Nat → List Row → List IRow
  | _, [] => []
  | n, r :: rs => (n, r) :: enumF (n + 1) rs

/-- Digit characters used by decimal rendering. -/
def digitChar (d : Nat) : Char :=
  match d with
  | 0 => '0' | 1 => '1' | 2 => '2' | 3 => '3' | 4 => '4'
  | 5 => '5' | 6 => '6' | 7 => '7' | 8 => '8' | _ => '9'

/-- Numeric value of a digit character. -/
def digitVal (c : Char) : Nat :=
  if c = '0' then 0 else if c = '1' then 1 else if c = '2' then 2
  else if c = '3' then 3 else if c = '4' then 4 else if c = '5' then 5
  else if c = '6' then 6 else if c = '7' then 7 else if c = '8' then 8 else 9

/-- Is `c` an ASCII decimal digit? -/
def isDigitC (c : Char) : Bool := decide ('0' ≤ c) && decide (c ≤ '9')

/-- Value of a digit string read most-significant first (leading zeros are
insignificant). -/
def digitsVal (l : List Char) : Nat := l.foldl (fun acc c => acc * 10 + digitVal c) 0

/-- Fuelled decimal rendering (fuel-structural so the kernel can reduce it). -/
def natDecAux : Nat → Nat → List Char
  | 0, _ => []
  | f + 1, n => if n < 10 then [digitChar n] else natDecAux f (n / 10) ++ [digitChar (n % 10)]

/-- Decimal rendering of a natural number, as Python's `str`/f-string does. -/
def natDecimal (n : Nat) : List Char := natDecAux (n + 1) n

/-- Left-pad a digit string with zeros to width 3, as `{:03d}` does: strings
already at least 3 long are returned untouched (no truncation). -/
def pad3 (l : List Char) : List Char :=
  if l.length ≥ 3 then l
  else if l.length = 2 then '0' :: l
  else if l.length = 1 then '0' :: '0' :: l
  else '0' :: '0' :: '0' :: l

/-- `f"{sector_id}.{seq:03d}"`, the Document_ID format string. -/
def fmtId (sid seq : Nat) : String := String.mk (natDecimal sid ++ '.' :: pad3 (natDecimal seq))

/-- The digits before the first dot of an identifier, as a number
(the sector code of a well-formed Document_ID). -/
def codeNat (s : String) : Nat := digitsVal (s.data.takeWhile (fun c => decide (c ≠ '.')))

/-- The digits after the first dot of an identifier, as a number
(the sequence number of a well-formed Document_ID). -/
def seqNat (s : String) : Nat := digitsVal ((s.data.dropWhile (fun c => decide (c ≠ '.'))).drop 1)

/-- Number of days in a month, Gregorian rules (as `datetime` validates). -/
def daysInMonth (y m : Nat) : Nat :=
  if m = 2 then (if (y % 4 = 0 ∧ y % 100 ≠ 0) ∨ y % 400 = 0 then 29 else 28)
  else if m = 4 ∨ m = 6 ∨ m = 9 ∨ m = 11 then 30 else 31

/-- Does this component match strptime's `%d` token
(`3[0-1]|[1-2]\d|0[1-9]|[1-9]| [1-9]`) — i.e. a 1–2 digit day 1..31, or a
space-padded single digit? Returns the day value when it does. -/
def dayTok (l : List Char) : Option Nat :=
  match l with
  | [c] => if isDigitC c ∧ c ≠ '0' then some (digitVal c) else none
  | [' ', c] => if isDigitC c ∧ c ≠ '0' then some (digitVal c) else none
  | [c1, c2] =>
      if isDigitC c1 ∧ isDigitC c2 ∧ 1 ≤ digitVal c1 * 10 + digitVal c2 ∧
          digitVal c1 * 10 + digitVal c2 ≤ 31 then
        some (digitVal c1 * 10 + digitVal c2)
      else none
  | _ => none

/-- strptime's `%m` token (`1[0-2]|0[1-9]|[1-9]`): a 1–2 digit month 1..12. -/
def monthTok (l : List Char) : Option Nat :=
  match l with
  | [c] => if isDigitC c ∧ c ≠ '0' then some (digitVal c) else none
  | [c1, c2] =>
      if isDigitC c1 ∧ isDigitC c2 ∧ 1 ≤ digitVal c1 * 10 + digitVal c2 ∧
          digitVal c1 * 10 + digitVal c2 ≤ 12 then
        some (digitVal c1 * 10 + digitVal c2)
      else none
  | _ => none

/-- strptime's `%Y` token (`\d\d\d\d`): exactly four digits; `datetime`
additionally requires the year be at least `MINYEAR = 1`. -/
def yearTok (l : List Char) : Option Nat :=
  match l with
  | [c1, c2, c3, c4] =>
      if isDigitC c1 ∧ isDigitC c2 ∧ isDigitC c3 ∧ isDigitC c4 ∧
          1 ≤ digitsVal [c1, c2, c3, c4] then
        some (digitsVal [c1, c2, c3, c4])
      else none
  | _ => none

/-- Split a character list at every occurrence of `sep` (as Python's
`str.split`/`splitOn` on a single character). -/
def splitOnC (sep : Char) : List Char → List (List Char)
  | [] => [[]]
  | c :: rest =>
      let r := splitOnC sep rest
      if c = sep then [] :: r
      else
        match r with
        | [] => [[c]]
        | h :: t => (c :: h) :: t

/-- `parse_date` of src/create_unique_ids.py: `None` for missing/empty input,
else `datetime.strptime(str(s), "%d.%m.%Y")` with any exception mapped to
`None`.  The parsed date is encoded order-preservingly as
`y * 10000 + m * 100 + d`. -/
def parseDate (s : String) : Option Nat :=
  if s = "" then none
  else
    match splitOnC '.' s.data with
    | [ds, ms, ys] =>
        match dayTok ds, monthTok ms, yearTok ys with
        | some d, some m, some y =>
            if d ≤ daysInMonth y m then some (y * 10000 + m * 100 + d) else none
        | _, _, _ => none
    | _ => none

/-- Does this indexed row carry a parseable date (`Date_parsed` not null)? -/
def dated? (p : IRow) : Bool := (parseDate p.2.date).isSome

/-- Sort key of an indexed row (its parsed date; only meaningful on dated rows). -/
def dkey (p : IRow) : Nat := (parseDate p.2.date).getD 0

/-- The sector→code configuration of `create_unique_ids` (`sector_mapping`). -/
def sector_mapping : List (String × Nat) :=
  [("Doprava", 1), ("Informatizacia", 2), ("Budovy", 3), ("Obrana", 4), ("Ostatne", 5)]

/-- The rows of one sector, in input order
(`df_with_ids[df_with_ids['Sector'] == sector]`). -/
def secFilter (enum : List IRow) (s : String) : List IRow :=
  enum.filter (fun p => decide (p.2.sector = s))

/-- The dated rows of sector `s`, in input order. -/
def datedL (enum : List IRow) (s : String) : List IRow :=
  (secFilter enum s).filter dated?

/-- The undated rows of sector `s`, in input order. -/
def undatedL (enum : List IRow) (s : String) : List IRow :=
  (secFilter enum s).filter (fun p => ! dated? p)

/-- The sort step of `sort_values('Date_parsed', na_position='last')` is
supplied as an explicit function on the dated part. -/
abbrev SortFn := List IRow → List IRow

/-- What pandas guarantees of `sort_values` for every sort kind: the result is
a permutation of the input, nondecreasing in the key.  The tie order is NOT
constrained — the code uses the default `kind='quicksort'`, which is
documented as unstable. -/
def SortsByDate (srt : SortFn) : Prop :=
  ∀ l : List IRow, (srt l).Perm l ∧ (srt l).Sorted (fun p q => dkey p ≤ dkey q)

/-- A pointwise store of assigned Document_IDs, standing for the
`Document_ID` column (initialised to `''`). -/
def updStore (f : Nat → String) (i : Nat) (v : String) : Nat → String :=
  fun j => if j = i then v else f j

/-- `df_with_ids.loc[idx, 'Document_ID'] = f"{sid}.{start+k+1:03d}"` for the
`k`-th label of `idxs` (sequence numbers `start+1, start+2, ...`). -/
def assignSeq (sid start : Nat) (idxs : List Nat) (store : Nat → String) : Nat → String :=
  match idxs with
  | [] => store
  | i :: rest => assignSeq sid (start + 1) rest (updStore store i (fmtId sid (start + 1)))

/-- `x[i], x[j] = x[j], x[i]` (out-of-range indices leave the list unchanged;
in this development all uses are in range). -/
def listSwap (l : List Nat) (i j : Nat) : List Nat :=
  match l[i]?, l[j]? with
  | some x, some y => (l.set i y).set j x
  | _, _ => l

/-- The loop of `random.shuffle`: for `i` from `n-1` down to `1`, draw `j`
uniformly in `0..i` and exchange positions `i` and `j`.  The generator is a
stream of draws; each exchange consumes one draw, reduced mod `i+1`. -/
def pyShuffleAux (l : List Nat) : Nat → List Nat → List Nat × List Nat
  | 0, g => (l, g)
  | i + 1, g => pyShuffleAux (listSwap l (i + 1) (g.headD 0 % (i + 2))) i g.tail

/-- `random.shuffle(xs)` over the ambient generator stream `g`; returns the
shuffled list and the advanced stream. -/
def pyShuffle (xs : List Nat) (g : List Nat) : List Nat × List Nat :=
  pyShuffleAux xs (xs.length - 1) g

/-- One line of console output of `create_unique_ids`. -/
inductive LogEntry where
  /-- `Processing sector: {sector} (SectorID: {sector_id})` -/
  | processing (sector : String) (sid : Nat)
  /-- `  No documents found for {sector}` -/
  | noDocs (sector : String)
  /-- `  Found {n} documents for {sector}` -/
  | found (sector : String) (n : Nat)
  /-- `    Assigned {doc_id} to document ... at index {idx}` -/
  | assigned (docId : String) (idx : Nat)
deriving DecidableEq

/-- The sector a log line reports about, if any. -/
def logSector : LogEntry → Option String
  | .processing s _ => some s
  | .noDocs s => some s
  | .found s _ => some s
  | .assigned _ _ => none

/-- Mutable state threaded through the per-sector loop: the Document_ID
column, the ambient generator stream, and the console trace. -/
structure PState where
  store : Nat → String
  g : List Nat
  log : List LogEntry

/-- Log lines for a run of sequential assignments. -/
def logAssigned (sid start : Nat) (idxs : List Nat) : List LogEntry :=
  match idxs with
  | [] => []
  | i :: rest => LogEntry.assigned (fmtId sid (start + 1)) i :: logAssigned sid (start + 1) rest

/-- The body of `for sector, sector_id in sector_mapping.items(): ...` for one
sector: filter the sector, sort dated-then-undated, assign `1..D` to the
dated rows in sorted order, then shuffle the undated labels and assign
`D+1..D+U` in shuffled order. -/
def processSector (srt : SortFn) (enum : List IRow) (s : String) (sid : Nat)
    (st : PState) : PState :=
  let log1 := st.log ++ [LogEntry.processing s sid]
  let sec := secFilter enum s
  if sec.length = 0 then
    { st with log := log1 ++ [LogEntry.noDocs s] }
  else
    let log2 := log1 ++ [LogEntry.found s sec.length]
    let sorted := srt (sec.filter dated?) ++ sec.filter (fun p => ! dated? p)
    let dateDocs := sorted.filter dated?
    let noDate := sorted.filter (fun p => ! dated? p)
    let store1 := assignSeq sid 0 (dateDocs.map (·.1)) st.store
    let log3 := log2 ++ logAssigned sid 0 (dateDocs.map (·.1))
    if noDate.length > 0 then
      let r := pyShuffle (noDate.map (·.1)) st.g
      { store := assignSeq sid dateDocs.length r.1 store1,
        g := r.2,
        log := log3 ++ logAssigned sid dateDocs.length r.1 }
    else
      { store := store1, g := st.g, log := log3 }

/-- The per-sector loop over the whole configuration. -/
def processSectors (srt : SortFn) (enum : List IRow) (m : List (String × Nat))
    (st : PState) : PState :=
  match m with
  | [] => st
  | (s, sid) :: rest => processSectors srt enum rest (processSector srt enum s sid st)

/-- `create_unique_ids(df)` of src/create_unique_ids.py.  `srt` is the
(uncommitted) tie order of `sort_values` (see `SortsByDate`); `g` is the
ambient `random` generator stream.  Returns the output rows (input rows, in
input order, with the `Document_ID` column added and `Date_parsed` dropped),
the advanced generator stream, and the console trace. -/
def create_unique_ids (srt : SortFn) (g : List Nat) (rows : List Row) :
    List RowOut × List Nat × List LogEntry :=
  let enum := enumF 0 rows
  let st := processSectors srt enum sector_mapping ⟨fun _ => "", g, []⟩
  (enum.map (fun p => ⟨p.2, st.store p.1⟩), st.g, st.log)

/-- The Document_ID assigned to input row `i` (empty when out of range). -/
def docIdAt (srt : SortFn) (g : List Nat) (rows : List Row) (i : Nat) : String :=
  (((create_unique_ids srt g rows).1[i]?).map (·.documentId)).getD ""

/-- The sequence number of the Document_ID assigned to input row `i`. -/
def docSeqAt (srt : SortFn) (g : List Nat) (rows : List Row) (i : Nat) : Nat :=
  seqNat (docIdAt srt g rows i)

/-- Number of dated rows of sector `s` (the `D` of the spec). -/
def datedCount (rows : List Row) (s : String) : Nat :=
  ((secFilter (enumF 0 rows) s).filter dated?).length

/-- Number of undated rows of sector `s` (the `U` of the spec). -/
def undatedCount (rows : List Row) (s : String) : Nat :=
  ((secFilter (enumF 0 rows) s).filter (fun p => ! dated? p)).length

/-- Draws consumed from the ambient generator by one full run: each sector
with `U ≥ 1` undated rows consumes `U - 1` draws. -/
def drawCount (rows : List Row) : Nat :=
  (sector_mapping.map (fun sc => undatedCount rows sc.1 - 1)).sum

/-- Draws consumed from the generator stream by one sector's processing
(`U - 1` for `U ≥ 1` undated rows, else none). -/
def consumeSec (enum : List IRow) (s : String) : Nat := (undatedL enum s).length - 1

/-- Draws consumed by the whole per-sector loop. -/
def consumeAll (enum : List IRow) (m : List (String × Nat)) : Nat :=
  (m.map (fun sc => consumeSec enum sc.1)).sum

/-- The stable, conforming sort: Mathlib's insertion sort by parsed date. -/
def stableSortByDate : SortFn :=
  List.insertionSort (fun p q => dkey p ≤ dkey q)

instance : IsTotal IRow (fun p q => dkey p ≤ dkey q) := ⟨fun _ _ => Nat.le_total _ _⟩

instance : IsTrans IRow (fun p q => dkey p ≤ dkey q) := ⟨fun _ _ _ => Nat.le_trans⟩

/-- A date-nondecreasing total order breaking ties by LARGER original label
first: sorting by it conforms to `SortsByDate` yet reverses equal-date rows. -/
def tieRevLE (p q : IRow) : Prop := dkey p < dkey q ∨ (dkey p = dkey q ∧ q.1 ≤ p.1)

instance : DecidableRel tieRevLE := fun p q => by unfold tieRevLE; infer_instance

instance : IsTotal IRow tieRevLE := ⟨fun a b => by unfold tieRevLE; omega⟩

instance : IsTrans IRow tieRevLE := ⟨fun a b c h1 h2 => by
  unfold tieRevLE at *; omega⟩

/-- A conforming but tie-reversing sort (insertion sort by `tieRevLE`). -/
def swapTieSort : SortFn := List.insertionSort tieRevLE

/-- Is `srt` stable: does it keep the rows of each equal-date class in their
original relative order?  (Equivalent to: filtering any one key class out of
the output yields the same list as filtering it out of the input.) -/
def StableSort (srt : SortFn) : Prop :=
  ∀ (l : List IRow) (k : Nat),
    (srt l).filter (fun p => decide (dkey p = k)) = l.filter (fun p => decide (dkey p = k))

/-! ### The structural extractor (src/complete_mfsr_scraper.py) -/

/-- Lowercasing as Python's `str.lower`, on the character repertoire of the
scraped pages (ASCII plus the Slovak diacritic letters). -/
def pyLowerChar (c : Char) : Char :=
  if decide ('A' ≤ c) && decide (c ≤ 'Z') then Char.ofNat (c.toNat + 32)
  else if c = 'Á' then 'á' else if c = 'Ä' then 'ä' else if c = 'Č' then 'č'
  else if c = 'Ď' then 'ď' else if c = 'É' then 'é' else if c = 'Í' then 'í'
  else if c = 'Ĺ' then 'ĺ' else if c = 'Ľ' then 'ľ' else if c = 'Ň' then 'ň'
  else if c = 'Ó' then 'ó' else if c = 'Ô' then 'ô' else if c = 'Ŕ' then 'ŕ'
  else if c = 'Š' then 'š' else if c = 'Ť' then 'ť' else if c = 'Ú' then 'ú'
  else if c = 'Ý' then 'ý' else if c = 'Ž' then 'ž' else c

/-- `s.lower()` on a character list. -/
def pyLower (l : List Char) : List Char := l.map pyLowerChar

/-- Is `pat` a prefix of `hay`? -/
def isPrefixB : List Char → List Char → Bool
  | [], _ => true
  | _ :: _, [] => false
  | a :: ps, b :: hs => a == b && isPrefixB ps hs

/-- Python's `pat in hay`: contiguous-substring test. -/
def isSubB (pat : List Char) : List Char → Bool
  | [] => isPrefixB pat []
  | c :: t => isPrefixB pat (c :: t) || isSubB pat t

/-- The fallback of `determine_document_type`:
`link_text[:50] + "..." if len(link_text) > 50 else link_text`. -/
def truncFallback (s : String) : String :=
  if s.data.length > 50 then String.mk (s.data.take 50 ++ "...".data) else s

/-- `determine_document_type(link_text, parent_text)` of
src/complete_mfsr_scraper.py: the ordered keyword-chain classifier. -/
def determine_document_type (linkText parentText : String) : String :=
  let t := pyLower (linkText.data ++ ' ' :: parentText.data)
  if isSubB "hodnotenie".data t then "hodnotenie"
  else if isSubB "analýza".data t || isSubB "analyza".data t then "analýza"
  else if isSubB "štúdia uskutočniteľnosti".data t then "štúdia uskutočniteľnosti"
  else if isSubB "aktualizácia".data t then "aktualizácia"
  else if isSubB "stanovisko".data t then "stanovisko"
  else if isSubB "správa".data t then "správa"
  else if isSubB "metodika".data t then "metodika"
  else if isSubB "zmluva".data t then "zmluva"
  else if isSubB "dohoda".data t then "dohoda"
  else if isSubB "investičný zámer".data t then "investičný zámer"
  else truncFallback linkText

/-- `determine_document_type` of src/fixed_mfsr_scraper.py: same chain
without the final `investičný zámer` case. -/
def determine_document_type_fixed (linkText parentText : String) : String :=
  let t := pyLower (linkText.data ++ ' ' :: parentText.data)
  if isSubB "hodnotenie".data t then "hodnotenie"
  else if isSubB "analýza".data t || isSubB "analyza".data t then "analýza"
  else if isSubB "štúdia uskutočniteľnosti".data t then "štúdia uskutočniteľnosti"
  else if isSubB "aktualizácia".data t then "aktualizácia"
  else if isSubB "stanovisko".data t then "stanovisko"
  else if isSubB "správa".data t then "správa"
  else if isSubB "metodika".data t then "metodika"
  else if isSubB "zmluva".data t then "zmluva"
  else if isSubB "dohoda".data t then "dohoda"
  else truncFallback linkText

/-- The classifier's keyword list as explicit ordered data
(keyword → label), complete-scraper variant. -/
def keywordPairs : List (List Char × String) :=
  [("hodnotenie".data, "hodnotenie"),
   ("analýza".data, "analýza"), ("analyza".data, "analýza"),
   ("štúdia uskutočniteľnosti".data, "štúdia uskutočniteľnosti"),
   ("aktualizácia".data, "aktualizácia"),
   ("stanovisko".data, "stanovisko"),
   ("správa".data, "správa"),
   ("metodika".data, "metodika"),
   ("zmluva".data, "zmluva"),
   ("dohoda".data, "dohoda"),
   ("investičný zámer".data, "investičný zámer")]

/-- Keyword list of the fixed-scraper variant. -/
def keywordPairsFixed : List (List Char × String) := keywordPairs.dropLast

/-- The label of the first keyword of the ordered list occurring as a
substring of `t` (list order decides, not position of occurrence). -/
def firstLabel : List (List Char × String) → List Char → Option String
  | [], _ => none
  | (kw, lbl) :: rest, t => if isSubB kw t then some lbl else firstLabel rest t

/-- A word character of the regex `\b` boundary (`\w`), on the repertoire of
the scraped pages: ASCII alphanumerics, underscore, Slovak diacritics. -/
def isWordChar (c : Char) : Bool :=
  c.isAlphanum || c == '_' ||
  ['á', 'ä', 'č', 'ď', 'é', 'í', 'ĺ', 'ľ', 'ň', 'ó', 'ô', 'ŕ', 'š', 'ť', 'ú', 'ý', 'ž',
   'Á', 'Ä', 'Č', 'Ď', 'É', 'Í', 'Ĺ', 'Ľ', 'Ň', 'Ó', 'Ô', 'Ŕ', 'Š', 'Ť', 'Ú', 'Ý', 'Ž'].contains c

/-- A `\b` word boundary immediately before a word character, given the
preceding character (if any). -/
def wordBoundary (prev : Option Char) : Bool :=
  match prev with
  | none => true
  | some c => ! isWordChar c

/-- A `\b` word boundary immediately after a word character, given the rest
of the text. -/
def boundaryOk : List Char → Bool
  | [] => true
  | c :: _ => ! isWordChar c

/-- The unit alternation of `size_re`, in the regex's order:
`(?:kB|KB|MB|GB|B|kb|mb|gb)`. -/
def unitAlts : List (List Char) :=
  ["kB".data, "KB".data, "MB".data, "GB".data, "B".data, "kb".data, "mb".data, "gb".data]

/-- Match one of the unit alternatives literally at the head of `l`, followed
by a `\b` boundary; alternatives are tried in list order (as the regex
backtracks). -/
def matchUnitAux : List (List Char) → List Char → Option (List Char × List Char)
  | [], _ => none
  | u :: us, l =>
      if isPrefixB u l && boundaryOk (l.drop u.length) then some (u, l.drop u.length)
      else matchUnitAux us l

/-- The claim's reading of the unit token: any capitalization of
B/kB/MB/GB (compared lowercased). -/
def matchUnitCI (l : List Char) : Option (List Char × List Char) :=
  (["kb".data, "mb".data, "gb".data, "b".data].filterMap fun u =>
    if decide (pyLower (l.take u.length) = u) && boundaryOk (l.drop u.length) then
      some (l.take u.length, l.drop u.length)
    else none).head?

/-- Match `\s*(unit)\b` at `rest1`, for a given unit matcher; returns the
consumed characters and the remainder. -/
def sizeTailWith (um : List Char → Option (List Char × List Char)) (rest1 : List Char) :
    Option (List Char × List Char) :=
  let sp := rest1.takeWhile Char.isWhitespace
  let r2 := rest1.dropWhile Char.isWhitespace
  match um r2 with
  | some (u, rem) => some (sp ++ u, rem)
  | none => none

/-- The optional fractional group `(?:[.,]\d+)` of `size_re`, tried greedily
before the tail `\s*(unit)\b`; `d` is the integer-digit part already
consumed. -/
def fracTryW (um : List Char → Option (List Char × List Char)) (d : List Char) :
    List Char → Option (List Char)
  | sep :: r2 =>
      if sep = '.' ∨ sep = ',' then
        let fd := r2.takeWhile isDigitC
        if fd.isEmpty then none
        else
          match sizeTailWith um (r2.dropWhile isDigitC) with
          | some (t, _) => some (d ++ sep :: fd ++ t)
          | none => none
      else none
  | [] => none

/-- Attempt `size_re` (`\b\d+(?:[.,]\d+)?\s*(unit)\b`) at one position:
`prev` is the character before the position.  Greedy with the regex's
backtracking: the fractional group is tried first, then skipped. -/
def matchSizeWith (um : List Char → Option (List Char × List Char))
    (prev : Option Char) (l : List Char) : Option (List Char) :=
  if ! wordBoundary prev then none
  else
    let d := l.takeWhile isDigitC
    if d.isEmpty then none
    else
      let r1 := l.dropWhile isDigitC
      match fracTryW um d r1 with
      | some m => some m
      | none =>
          match sizeTailWith um r1 with
          | some (t, _) => some (d ++ t)
          | none => none

/-- Leftmost-match scan of a position matcher over the text. -/
def scanSearch (f : Option Char → List Char → Option (List Char)) :
    Option Char → List Char → Option (List Char)
  | _, [] => none
  | prev, c :: rest =>
      match f prev (c :: rest) with
      | some m => some m
      | none => scanSearch f (some c) rest

/-- `size_re.search(text)`: first substring matching
`\b\d+(?:[.,]\d+)?\s*(?:kB|KB|MB|GB|B|kb|mb|gb)\b`. -/
def sizeSearch (l : List Char) : Option (List Char) :=
  scanSearch (matchSizeWith (matchUnitAux unitAlts)) none l

/-- The size search as the claim states it: unit token matched
case-insensitively (any capitalization of B/kB/MB/GB). -/
def sizeSearchCI (l : List Char) : Option (List Char) :=
  scanSearch (matchSizeWith matchUnitCI) none l

/-- The attempt of `size_re` at position `i` of `l` (boundary context
included); used to state leftmostness of `sizeSearch`. -/
def matchPos (l : List Char) (i : Nat) : Option (List Char) :=
  matchSizeWith (matchUnitAux unitAlts) (if i = 0 then none else l[i - 1]?) (l.drop i)

/-- Exactly `n` digits at the head of `l`. -/
def digitsN (n : Nat) (l : List Char) : Option (List Char × List Char) :=
  let d := l.take n
  if d.length = n && d.all isDigitC then some (d, l.drop n) else none

/-- `\.\d{1,2}\.\d{4}\b` with a month of `ml` digits. -/
def dateMonthFrom (r2 : List Char) (ml : Nat) : Option (List Char) :=
  match digitsN ml r2 with
  | none => none
  | some (m, r3) =>
      match r3 with
      | '.' :: r4 =>
          match digitsN 4 r4 with
          | some (y, r5) => if boundaryOk r5 then some (m ++ '.' :: y) else none
          | none => none
      | _ => none

/-- `\d{1,2}\.\d{1,2}\.\d{4}\b` with a day of `dl` digits. -/
def dateFrom (l : List Char) (dl : Nat) : Option (List Char) :=
  match digitsN dl l with
  | none => none
  | some (d, r1) =>
      match r1 with
      | '.' :: r2 =>
          match dateMonthFrom r2 2 with
          | some m => some (d ++ '.' :: m)
          | none =>
              match dateMonthFrom r2 1 with
              | some m => some (d ++ '.' :: m)
              | none => none
      | _ => none

/-- Attempt `date_re` (`\b\d{1,2}\.\d{1,2}\.\d{4}\b`) at one position, with
the regex's greedy backtracking over the 1–2 digit groups. -/
def dateMatchAt (prev : Option Char) (l : List Char) : Option (List Char) :=
  if ! wordBoundary prev then none
  else
    match dateFrom l 2 with
    | some s => some s
    | none => dateFrom l 1

/-- `date_re.search(text)`. -/
def dateSearch (l : List Char) : Option (List Char) :=
  scanSearch dateMatchAt none l

instance {ε α : Type} [DecidableEq ε] [DecidableEq α] : DecidableEq (Except ε α) := fun a b =>
  match a, b with
  | .error e1, .error e2 =>
      if h : e1 = e2 then .isTrue (by rw [h]) else .isFalse (by simp [h])
  | .error _, .ok _ => .isFalse (by simp)
  | .ok _, .error _ => .isFalse (by simp)
  | .ok x, .ok y =>
      if h : x = y then .isTrue (by rw [h]) else .isFalse (by simp [h])

/-- A sibling of an anchor: either an element with a (fallible) `get_text`,
or a bare string node (`str(sib).strip()` is used instead). -/
inductive SibNode where
  | tag (text : Except Unit String)
  | navString (s : String)
deriving DecidableEq

/-- An `<a>` element: href attribute, own text, parent's text (when a parent
exists) and the sibling windows; text accessors may raise. -/
structure ANode where
  href : Option String
  text : Except Unit String
  parent : Option (Except Unit String)
  prevSibs : List SibNode
  nextSibs : List SibNode
deriving DecidableEq

/-- One node of the flat `soup.find_all(["h4", "h5", "a"])` stream. -/
inductive PageNode where
  | h4 (text : Except Unit String)
  | h5 (text : Except Unit String)
  | a (node : ANode)
deriving DecidableEq

/-- `str.strip()` (whitespace from both ends). -/
def pyStrip (l : List Char) : List Char :=
  ((l.dropWhile Char.isWhitespace).reverse.dropWhile Char.isWhitespace).reverse

/-- `str(sib).strip()` or `sib.get_text(" ", strip=True)` (which may raise). -/
def sibText : SibNode → Except Unit (List Char)
  | .tag t => match t with | .ok s => Except.ok s.data | .error e => Except.error e
  | .navString s => Except.ok (pyStrip s.data)

/-- `" ".join(texts)`. -/
def joinSpace : List (List Char) → List Char
  | [] => []
  | [t] => t
  | t :: rest => t ++ ' ' :: joinSpace rest

/-- Error-propagating map (the sibling loops carry no `try/except`). -/
def mapE (f : SibNode → Except Unit (List Char)) : List SibNode → Except Unit (List (List Char))
  | [] => Except.ok []
  | x :: xs =>
      match f x with
      | .error e => Except.error e
      | .ok t =>
          match mapE f xs with
          | .error e => Except.error e
          | .ok ts => Except.ok (t :: ts)

/-- `extract_date_and_size(anchor)`: the anchor's own and parent texts are
read under `try/except` (failures skipped), the bounded sibling windows
(12 preceding, 6 following) are read WITHOUT protection (failures
propagate); the non-empty texts are space-joined and searched. -/
def extract_date_and_size (anchor : ANode) :
    Except Unit (Option (List Char) × Option (List Char)) :=
  let t0 := match anchor.text with | .ok s => [s.data] | .error _ => []
  let t1 := match anchor.parent with
    | some (Except.ok s) => [s.data]
    | some (Except.error _) => []
    | none => []
  match mapE sibText (anchor.prevSibs.take 12) with
  | .error e => Except.error e
  | .ok prev =>
      match mapE sibText (anchor.nextSibs.take 6) with
      | .error e => Except.error e
      | .ok next =>
          let combined := joinSpace ((t0 ++ t1 ++ prev ++ next).filter (fun t => ! t.isEmpty))
          Except.ok (dateSearch combined, sizeSearch combined)

/-- `is_pdf_link(href, link_text)`. -/
def is_pdf_link (href : Option String) (linkText : String) : Bool :=
  match href with
  | none => false
  | some h =>
      if h = "" then false
      else isSubB ".pdf".data (pyLower h.data) || isSubB "pdf".data (pyLower linkText.data)

/-- The scraper's base location. -/
def BASE : String := "https://www.mfsr.sk"

/-- Models `urllib.parse.urljoin` for the URL shapes occurring here:
absolute http(s) references, protocol-relative, host-relative and
path-relative references against an http(s) base. -/
def urljoin (base url : String) : String :=
  let b := base.data
  let u := url.data
  if isPrefixB "http://".data u || isPrefixB "https://".data u then url
  else
    let scheme := b.takeWhile (fun c => decide (c ≠ ':'))
    let afterScheme := (b.dropWhile (fun c => decide (c ≠ ':'))).drop 3
    let host := afterScheme.takeWhile (fun c => decide (c ≠ '/'))
    let path := afterScheme.dropWhile (fun c => decide (c ≠ '/'))
    if isPrefixB "//".data u then String.mk (scheme ++ ':' :: u)
    else if isPrefixB "/".data u then String.mk (scheme ++ ':' :: '/' :: '/' :: host ++ u)
    else
      let dir := (path.reverse.dropWhile (fun c => decide (c ≠ '/'))).reverse
      String.mk (scheme ++ ':' :: '/' :: '/' :: host ++ dir ++
        (if dir.isEmpty then '/' :: u else u))

/-- The page-walk context: `last_project_name`, the `seen` key set, and the
accumulated `rows`. -/
structure WalkState where
  lastProject : String
  seen : List (String × String × String)
  rows : List Row
deriving DecidableEq

/-- The `for elem in soup.find_all(["h4", "h5", "a"])` loop of
`scrape_sector_page`, as an `Except`-valued walk: any uncaught text-read
failure aborts (the caller's page-level `try/except` maps it to `[]`).
h4 nodes are skipped without reading; h5 text replaces the current project;
a PDF-candidate link is classified, resolved, searched for date/size, and
appended unless its `(sector, project, url)` key was already seen. -/
def walkPage (sector : String) : List PageNode → WalkState → Except Unit WalkState
  | [], st => Except.ok st
  | .h4 _ :: rest, st => walkPage sector rest st
  | .h5 t :: rest, st =>
      match t with
      | .error e => Except.error e
      | .ok txt => walkPage sector rest { st with lastProject := txt }
  | .a an :: rest, st =>
      match an.text with
      | .error e => Except.error e
      | .ok ltext =>
          if is_pdf_link an.href ltext then
            match (match an.parent with | some t => t | none => Except.ok "") with
            | .error e => Except.error e
            | .ok ptext =>
                let dtype := determine_document_type ltext ptext
                let url := urljoin BASE (an.href.getD "")
                match extract_date_and_size an with
                | .error e => Except.error e
                | .ok ds =>
                    let key := (sector, st.lastProject, url)
                    if key ∈ st.seen then walkPage sector rest st
                    else
                      walkPage sector rest
                        { st with
                          seen := key :: st.seen,
                          rows := st.rows ++ [⟨sector, st.lastProject, dtype, url,
                            (ds.1.map String.mk).getD "", (ds.2.map String.mk).getD ""⟩] }
          else walkPage sector rest st

/-- `scrape_sector_page(sector_name, page_url, session)`, network fetch
abstracted away to the materialized node sequence: walks the page from the
initial context (`last_project_name = "UNKNOWN_PROJECT"`, empty `seen`);
the enclosing `try/except` returns `[]` on any uncaught failure. -/
def scrape_sector_page (sector : String) (nodes : List PageNode) : List Row :=
  match walkPage sector nodes ⟨"UNKNOWN_PROJECT", [], []⟩ with
  | .ok st => st.rows
  | .error _ => []

/-- The deduplication key of an output record. -/
def rowKey (r : Row) : String × String × String := (r.sector, r.projectName, r.url)

/-- Is this an `Except.error`? -/
def isErr {α : Type} : Except Unit α → Bool
  | .error _ => true
  | .ok _ => false

/-- Does this sibling's text read raise? -/
def sibFaulty : SibNode → Bool
  | .tag t => isErr t
  | .navString _ => false

/-- Does processing this node perform a text read that raises?  (h4 text is
never read; an anchor's parent and sibling texts are only read when the
anchor is a PDF candidate, which requires its own text.) -/
def faultyNode : PageNode → Bool
  | .h4 _ => false
  | .h5 t => isErr t
  | .a an =>
      match an.text with
      | .error _ => true
      | .ok ltext =>
          is_pdf_link an.href ltext &&
          ((match an.parent with | some t => isErr t | none => false) ||
           (an.prevSibs.take 12).any sibFaulty || (an.nextSibs.take 6).any sibFaulty)

/-- A well-formed PDF anchor. -/
def c9goodAnchor : ANode :=
  ⟨some "/a.pdf", Except.ok "hodnotenie a", some (Except.ok "ctx 1.1.2020 1 MB"), [], []⟩

/-- A PDF anchor one of whose in-window previous siblings raises on
`get_text`. -/
def c9badAnchor : ANode :=
  ⟨some "/b.pdf", Except.ok "hodnotenie b", some (Except.ok "ctx"),
    [SibNode.tag (Except.error ())], []⟩

/-- The same anchor with the faulty sibling reading as empty text instead
(what the claim says the failure should be treated as). -/
def c9fixedAnchor : ANode :=
  ⟨some "/b.pdf", Except.ok "hodnotenie b", some (Except.ok "ctx"),
    [SibNode.tag (Except.ok "")], []⟩

/-- A page with one good record followed by an anchor with a faulty sibling. -/
def c9nodes : List PageNode :=
  [PageNode.h5 (Except.ok "P"), PageNode.a c9goodAnchor, PageNode.a c9badAnchor]

/-- The same page with the faulty sibling read replaced by empty text. -/
def c9nodesIsolated : List PageNode :=
  [PageNode.h5 (Except.ok "P"), PageNode.a c9goodAnchor, PageNode.a c9fixedAnchor]

/-- Records of a category `"Z"` absent from the mapping, plus one mapped
record (configuration-error scenario of the spec). -/
def c1rows : List Row :=
  [⟨"Z", "pz0", "t", "uz0", "01.01.2020", "1 MB"⟩,
   ⟨"Z", "pz1", "t", "uz1", "", "1 MB"⟩,
   ⟨"Doprava", "pd", "t", "ud", "01.01.2020", "1 MB"⟩]

/-- Two undated records of one sector (generator-threading scenario). -/
def c2rows : List Row :=
  [⟨"Doprava", "p0", "t", "u0", "", "1 MB"⟩,
   ⟨"Doprava", "p1", "t", "u1", "", "1 MB"⟩]

/-- Two records of one sector with the same date (tie-break scenario). -/
def c3rows : List Row :=
  [⟨"Doprava", "p0", "t", "u0", "01.01.2020", "1 MB"⟩,
   ⟨"Doprava", "p1", "t", "u1", "01.01.2020", "1 MB"⟩]

/-- Witness rows: two dated records out of date order and one undated. -/
def wRows : List Row :=
  [⟨"Doprava", "pa", "t", "ua", "01.01.2020", "1 MB"⟩,
   ⟨"Doprava", "pb", "t", "ub", "15.06.2019", "2 MB"⟩,
   ⟨"Doprava", "pc", "t", "uc", "", "3 MB"⟩]

theorem enumF_map_snd (n : Nat) (l : List Row) : (enumF n l).map (·.2) = l := by
  induction l generalizing n with
  | nil => rfl
  | cons r rs ih => simp [enumF, ih]

theorem enumF_length (n : Nat) (l : List Row) : (enumF n l).length = l.length := by
  induction l generalizing n with
  | nil => rfl
  | cons r rs ih => simp [enumF, ih]

/-- C10: `create_unique_ids` returns exactly the input rows, in input order,
with every pre-existing column unchanged; the only difference is the added
`Document_ID` column (the `RowOut.documentId` field), and the temporary
`Date_parsed` helper column is absent from the returned record type. -/
theorem c10_frame (srt : SortFn) (g : List Nat) (rows : List Row) :
    ((create_unique_ids srt g rows).1).map (·.base) = rows := by
  show ((enumF 0 rows).map _).map _ = rows
  rw [List.map_map]
  exact enumF_map_snd 0 rows

theorem digitVal_digitChar : ∀ d, d < 10 → digitVal (digitChar d) = d := by decide

theorem digitChar_digit (d : Nat) : isDigitC (digitChar d) = true ∧ digitChar d ≠ '.' := by
  unfold digitChar
  split <;> exact ⟨by decide, by decide⟩

theorem digitsVal_append_one (l : List Char) (c : Char) :
    digitsVal (l ++ [c]) = digitsVal l * 10 + digitVal c := by
  unfold digitsVal
  rw [List.foldl_append]
  rfl

theorem digitsVal_natDecAux : ∀ fuel n, n < fuel → digitsVal (natDecAux fuel n) = n := by
  intro fuel
  induction fuel with
  | zero => intro n h; omega
  | succ f ih =>
      intro n h
      unfold natDecAux
      by_cases h10 : n < 10
      · simp only [if_pos h10]
        show digitsVal [digitChar n] = n
        unfold digitsVal
        simp [digitVal_digitChar n h10]
      · simp only [if_neg h10]
        rw [digitsVal_append_one, ih (n / 10) (by omega), digitVal_digitChar (n % 10) (by omega)]
        omega

theorem digitsVal_natDecimal (n : Nat) : digitsVal (natDecimal n) = n :=
  digitsVal_natDecAux (n + 1) n (Nat.lt_succ_self n)

theorem natDecAux_digits : ∀ fuel n c, c ∈ natDecAux fuel n → isDigitC c = true ∧ c ≠ '.' := by
  intro fuel
  induction fuel with
  | zero => intro n c h; simp [natDecAux] at h
  | succ f ih =>
      intro n c h
      unfold natDecAux at h
      by_cases h10 : n < 10
      · simp only [if_pos h10, List.mem_singleton] at h
        subst h; exact digitChar_digit n
      · simp only [if_neg h10, List.mem_append, List.mem_singleton] at h
        rcases h with h | h
        · exact ih _ _ h
        · subst h; exact digitChar_digit _

theorem natDecimal_digits (n : Nat) (c : Char) (h : c ∈ natDecimal n) :
    isDigitC c = true ∧ c ≠ '.' :=
  natDecAux_digits (n + 1) n c h

theorem natDecimal_ne_nil (n : Nat) : natDecimal n ≠ [] := by
  unfold natDecimal natDecAux
  by_cases h10 : n < 10
  · rw [if_pos h10]; exact List.cons_ne_nil _ _
  · rw [if_neg h10]
    intro hc
    rcases List.append_eq_nil.mp hc with ⟨-, h2⟩
    exact List.cons_ne_nil _ _ h2

theorem digitsVal_cons_zero (l : List Char) : digitsVal ('0' :: l) = digitsVal l := by
  unfold digitsVal
  rfl

theorem digitsVal_pad3 (l : List Char) : digitsVal (pad3 l) = digitsVal l := by
  unfold pad3
  split_ifs <;> simp [digitsVal_cons_zero]

theorem pad3_mem (l : List Char) (c : Char) (h : c ∈ pad3 l) : c = '0' ∨ c ∈ l := by
  unfold pad3 at h
  split_ifs at h
  · exact Or.inr h
  · simp only [List.mem_cons] at h; tauto
  · simp only [List.mem_cons] at h; tauto
  · simp only [List.mem_cons] at h; tauto

theorem takeWhile_append_stop (a b : List Char) (sep : Char)
    (ha : ∀ c ∈ a, c ≠ sep) :
    (a ++ sep :: b).takeWhile (fun c => decide (c ≠ sep)) = a := by
  induction a with
  | nil => simp [List.takeWhile]
  | cons c t ih =>
      have hc : c ≠ sep := ha c (by simp)
      simp only [List.cons_append, List.takeWhile_cons]
      rw [if_pos (by simpa using hc)]
      rw [ih (fun x hx => ha x (by simp [hx]))]

theorem dropWhile_append_stop (a b : List Char) (sep : Char)
    (ha : ∀ c ∈ a, c ≠ sep) :
    (a ++ sep :: b).dropWhile (fun c => decide (c ≠ sep)) = sep :: b := by
  induction a with
  | nil => simp [List.dropWhile]
  | cons c t ih =>
      have hc : c ≠ sep := ha c (by simp)
      simp only [List.cons_append, List.dropWhile_cons]
      rw [if_pos (by simpa using hc)]
      exact ih (fun x hx => ha x (by simp [hx]))

theorem seqNat_fmtId (c k : Nat) : seqNat (fmtId c k) = k := by
  unfold seqNat fmtId
  show digitsVal ((((natDecimal c ++ '.' :: pad3 (natDecimal k))).dropWhile
    (fun c => decide (c ≠ '.'))).drop 1) = k
  rw [dropWhile_append_stop _ _ _ (fun x hx => (natDecimal_digits c x hx).2)]
  simp only [List.drop_one, List.tail_cons]
  rw [digitsVal_pad3, digitsVal_natDecimal]

theorem codeNat_fmtId (c k : Nat) : codeNat (fmtId c k) = c := by
  unfold codeNat fmtId
  show digitsVal (((natDecimal c ++ '.' :: pad3 (natDecimal k))).takeWhile
    (fun c => decide (c ≠ '.'))) = c
  rw [takeWhile_append_stop _ _ _ (fun x hx => (natDecimal_digits c x hx).2)]
  exact digitsVal_natDecimal c

theorem fmtId_inj (c1 k1 c2 k2 : Nat) (h : fmtId c1 k1 = fmtId c2 k2) :
    c1 = c2 ∧ k1 = k2 := by
  constructor
  · have := congrArg codeNat h
    rwa [codeNat_fmtId, codeNat_fmtId] at this
  · have := congrArg seqNat h
    rwa [seqNat_fmtId, seqNat_fmtId] at this

theorem fmtId_ne_empty (c k : Nat) : fmtId c k ≠ "" := by
  unfold fmtId
  intro h
  have : (natDecimal c ++ '.' :: pad3 (natDecimal k)) = [] := by
    have := congrArg String.data h
    simpa using this
  rcases List.append_eq_nil.mp this with ⟨_, h2⟩
  exact List.cons_ne_nil _ _ h2

theorem enumF_getElem? (l : List Row) : ∀ (n i : Nat),
    (enumF n l)[i]? = l[i]?.map (fun r => (n + i, r)) := by
  induction l with
  | nil => intro n i; simp [enumF]
  | cons r rs ih =>
      intro n i
      cases i with
      | zero => simp [enumF]
      | succ j =>
          simp only [enumF, List.getElem?_cons_succ, ih (n + 1) j]
          cases rs[j]? <;> simp <;> omega

theorem enumF_mem (l : List Row) : ∀ (n i : Nat) (r : Row),
    ((i, r) ∈ enumF n l ↔ n ≤ i ∧ l[i - n]? = some r) := by
  induction l with
  | nil => intro n i r; simp [enumF]
  | cons x xs ih =>
      intro n i r
      simp only [enumF, List.mem_cons, Prod.mk.injEq, ih (n + 1) i r]
      constructor
      · rintro (⟨rfl, rfl⟩ | ⟨h1, h2⟩)
        · simp
        · refine ⟨by omega, ?_⟩
          have : i - n = (i - (n + 1)) + 1 := by omega
          rw [this]
          simpa using h2
      · rintro ⟨h1, h2⟩
        rcases Nat.eq_or_lt_of_le h1 with rfl | hlt
        · left
          simp at h2
          exact ⟨rfl, h2.symm⟩
        · right
          refine ⟨by omega, ?_⟩
          have : i - n = (i - (n + 1)) + 1 := by omega
          rw [this] at h2
          simpa using h2

theorem enumF_mem_zero (l : List Row) (i : Nat) (r : Row) :
    (i, r) ∈ enumF 0 l ↔ l[i]? = some r := by
  rw [enumF_mem l 0 i r]
  simp

theorem enumF_map_fst (l : List Row) : ∀ n, (enumF n l).map (·.1) = List.range' n l.length := by
  induction l with
  | nil => intro n; rfl
  | cons x xs ih => intro n; simp [enumF, ih (n + 1), List.range'_succ]

theorem enumF_fst_nodup (l : List Row) (n : Nat) : ((enumF n l).map (·.1)).Nodup := by
  rw [enumF_map_fst]
  exact List.nodup_range' _ _

theorem assignSeq_not_mem (sid : Nat) (idxs : List Nat) : ∀ (start : Nat) (store : Nat → String)
    (i : Nat), i ∉ idxs → assignSeq sid start idxs store i = store i := by
  induction idxs with
  | nil => intro start store i _; rfl
  | cons j rest ih =>
      intro start store i hi
      simp only [List.mem_cons, not_or] at hi
      unfold assignSeq
      rw [ih (start + 1) _ i hi.2]
      unfold updStore
      rw [if_neg hi.1]

theorem assignSeq_at (sid : Nat) (idxs : List Nat) : ∀ (start : Nat) (store : Nat → String)
    (k i : Nat), idxs.Nodup → idxs[k]? = some i →
    assignSeq sid start idxs store i = fmtId sid (start + k + 1) := by
  induction idxs with
  | nil => intro start store k i _ h; simp at h
  | cons j rest ih =>
      intro start store k i hnd hk
      have hnd2 := List.nodup_cons.mp hnd
      cases k with
      | zero =>
          simp only [List.getElem?_cons_zero, Option.some.injEq] at hk
          subst hk
          unfold assignSeq
          rw [assignSeq_not_mem sid rest (start + 1) _ j hnd2.1]
          unfold updStore
          simp
      | succ k2 =>
          simp only [List.getElem?_cons_succ] at hk
          unfold assignSeq
          rw [ih (start + 1) _ k2 i hnd2.2 hk]
          congr 1
          omega

theorem cons_set_perm : ∀ (t : List Nat) (m x y : Nat), t[m]? = some y →
    (y :: t.set m x).Perm (x :: t) := by
  intro t
  induction t with
  | nil => intro m x y h; simp at h
  | cons a t2 ih =>
      intro m x y h
      cases m with
      | zero =>
          simp only [List.getElem?_cons_zero, Option.some.injEq] at h
          simp only [List.set_cons_zero]
          rw [h]
          exact List.Perm.swap x y t2
      | succ m2 =>
          simp only [List.getElem?_cons_succ] at h
          simp only [List.set_cons_succ]
          exact ((List.Perm.swap a y _).trans ((ih m2 x y h).cons a)).trans
            (List.Perm.swap x a t2)

theorem set_set_perm : ∀ (l : List Nat) (i j x y : Nat), l[i]? = some x → l[j]? = some y →
    ((l.set i y).set j x).Perm l := by
  intro l
  induction l with
  | nil => intro i j x y h _; simp at h
  | cons a t ih =>
      intro i j x y hi hj
      cases i with
      | zero =>
          simp only [List.getElem?_cons_zero, Option.some.injEq] at hi
          cases j with
          | zero =>
              simp only [List.set_cons_zero]
              rw [hi]
          | succ m =>
              simp only [List.getElem?_cons_succ] at hj
              simp only [List.set_cons_zero, List.set_cons_succ]
              rw [hi]
              exact cons_set_perm t m x y hj
      | succ n =>
          simp only [List.getElem?_cons_succ] at hi
          cases j with
          | zero =>
              simp only [List.getElem?_cons_zero, Option.some.injEq] at hj
              simp only [List.set_cons_succ, List.set_cons_zero]
              rw [hj]
              exact cons_set_perm t n y x hi
          | succ m =>
              simp only [List.getElem?_cons_succ] at hj
              simp only [List.set_cons_succ]
              exact List.Perm.cons a (ih n m x y hi hj)

theorem listSwap_perm (l : List Nat) (i j : Nat) : (listSwap l i j).Perm l := by
  unfold listSwap
  cases hi : l[i]? with
  | none => exact List.Perm.refl l
  | some x =>
      cases hj : l[j]? with
      | none => exact List.Perm.refl l
      | some y => exact set_set_perm l i j x y hi hj

theorem pyShuffleAux_perm (n : Nat) : ∀ (l : List Nat) (g : List Nat),
    (pyShuffleAux l n g).1.Perm l := by
  induction n with
  | zero => intro l g; exact List.Perm.refl l
  | succ m ih =>
      intro l g
      unfold pyShuffleAux
      exact (ih _ g.tail).trans (listSwap_perm l (m + 1) (g.headD 0 % (m + 2)))

theorem pyShuffle_perm (xs g : List Nat) : (pyShuffle xs g).1.Perm xs :=
  pyShuffleAux_perm (xs.length - 1) xs g

theorem pyShuffleAux_gen (n : Nat) : ∀ (l : List Nat) (g1 g2 : List Nat),
    g1.take n = g2.take n →
    (pyShuffleAux l n g1).1 = (pyShuffleAux l n g2).1 ∧
    (pyShuffleAux l n g1).2 = g1.drop n ∧ (pyShuffleAux l n g2).2 = g2.drop n := by
  induction n with
  | zero => intro l g1 g2 _; exact ⟨rfl, rfl, rfl⟩
  | succ m ih =>
      intro l g1 g2 htake
      have hhead : g1.headD 0 = g2.headD 0 := by
        cases g1 with
        | nil =>
            cases g2 with
            | nil => rfl
            | cons b t2 => simp [List.take] at htake
        | cons a t1 =>
            cases g2 with
            | nil => simp [List.take] at htake
            | cons b t2 =>
                simp only [List.take_succ_cons, List.cons.injEq] at htake
                simp [htake.1]
      have htail : g1.tail.take m = g2.tail.take m := by
        cases g1 with
        | nil =>
            cases g2 with
            | nil => rfl
            | cons b t2 => simp [List.take] at htake
        | cons a t1 =>
            cases g2 with
            | nil => simp [List.take] at htake
            | cons b t2 =>
                simp only [List.take_succ_cons, List.cons.injEq] at htake
                simpa using htake.2
      unfold pyShuffleAux
      rw [hhead]
      have h3 := ih (listSwap l (m + 1) (g2.headD 0 % (m + 2))) g1.tail g2.tail htail
      refine ⟨h3.1, ?_, ?_⟩
      · rw [h3.2.1]
        cases g1 <;> simp [List.drop]
      · rw [h3.2.2]
        cases g2 <;> simp [List.drop]

theorem mem_secFilter (enum : List IRow) (s : String) (p : IRow) :
    p ∈ secFilter enum s ↔ p ∈ enum ∧ p.2.sector = s := by
  unfold secFilter
  simp [List.mem_filter]

theorem filter_neg_filter (f : IRow → Bool) (l : List IRow) :
    (l.filter (fun p => ! f p)).filter f = [] := by
  induction l with
  | nil => rfl
  | cons a t ih =>
      cases h : f a <;> simp [List.filter_cons, h, ih]

theorem filter_idem (f : IRow → Bool) (l : List IRow) :
    (l.filter f).filter f = l.filter f :=
  List.filter_eq_self.mpr (fun p hp => (List.mem_filter.mp hp).2)

theorem srt_datedL_filter (srt : SortFn) (hs : SortsByDate srt) (enum : List IRow) (s : String) :
    (srt (datedL enum s)).filter dated? = srt (datedL enum s) := by
  apply List.filter_eq_self.mpr
  intro p hp
  have hmem : p ∈ datedL enum s := ((hs (datedL enum s)).1.mem_iff).mp hp
  exact (List.mem_filter.mp hmem).2

theorem srt_datedL_filter_neg (srt : SortFn) (hs : SortsByDate srt) (enum : List IRow)
    (s : String) :
    (srt (datedL enum s)).filter (fun p => ! dated? p) = [] := by
  apply List.filter_eq_nil.mpr
  intro p hp
  have hmem : p ∈ datedL enum s := ((hs (datedL enum s)).1.mem_iff).mp hp
  simp [(List.mem_filter.mp hmem).2]

theorem sorted_filter_dated (srt : SortFn) (hs : SortsByDate srt) (enum : List IRow)
    (s : String) :
    (srt ((secFilter enum s).filter dated?) ++
      (secFilter enum s).filter (fun p => ! dated? p)).filter dated? =
      srt (datedL enum s) := by
  rw [List.filter_append]
  rw [show (secFilter enum s).filter dated? = datedL enum s from rfl]
  rw [srt_datedL_filter srt hs, filter_neg_filter dated?]
  simp

theorem sorted_filter_undated (srt : SortFn) (hs : SortsByDate srt) (enum : List IRow)
    (s : String) :
    (srt ((secFilter enum s).filter dated?) ++
      (secFilter enum s).filter (fun p => ! dated? p)).filter (fun p => ! dated? p) =
      undatedL enum s := by
  rw [List.filter_append]
  rw [show (secFilter enum s).filter dated? = datedL enum s from rfl]
  rw [srt_datedL_filter_neg srt hs, filter_idem]
  simp [undatedL]

theorem fst_nodup_mem_inj {l : List IRow} (h : (l.map (·.1)).Nodup) {i : Nat} {a b : Row}
    (ha : (i, a) ∈ l) (hb : (i, b) ∈ l) : a = b := by
  induction l with
  | nil => simp at ha
  | cons p t ih =>
      simp only [List.map_cons, List.nodup_cons] at h
      rcases List.mem_cons.mp ha with h1 | ha2
      · rcases List.mem_cons.mp hb with h2 | hb2
        · rw [← h1] at h2
          exact ((Prod.mk.injEq _ _ _ _ |>.mp h2).2).symm
        · exfalso
          apply h.1
          rw [← h1]
          exact List.mem_map.mpr ⟨(i, b), hb2, rfl⟩
      · rcases List.mem_cons.mp hb with h2 | hb2
        · exfalso
          apply h.1
          rw [← h2]
          exact List.mem_map.mpr ⟨(i, a), ha2, rfl⟩
        · exact ih h.2 ha2 hb2

theorem processSector_spec (srt : SortFn) (hs : SortsByDate srt) (enum : List IRow)
    (s : String) (sid : Nat) (st : PState) (h : ¬ (secFilter enum s).length = 0) :
    processSector srt enum s sid st =
      (let sD := srt (datedL enum s)
       let uL := undatedL enum s
       let store1 := assignSeq sid 0 (sD.map (·.1)) st.store
       let log3 := st.log ++ LogEntry.processing s sid ::
         LogEntry.found s (secFilter enum s).length :: logAssigned sid 0 (sD.map (·.1))
       if 0 < uL.length then
         { store := assignSeq sid sD.length (pyShuffle (uL.map (·.1)) st.g).1 store1,
           g := (pyShuffle (uL.map (·.1)) st.g).2,
           log := log3 ++ logAssigned sid sD.length (pyShuffle (uL.map (·.1)) st.g).1 }
       else { store := store1, g := st.g, log := log3 }) := by
  unfold processSector
  rw [if_neg h]
  simp only [sorted_filter_dated srt hs enum s, sorted_filter_undated srt hs enum s]
  split_ifs with h1 <;> simp [List.append_assoc]

theorem processSector_store_frame (srt : SortFn) (hs : SortsByDate srt) (enum : List IRow)
    (s : String) (sid : Nat) (st : PState) (i : Nat)
    (hni : ∀ r : Row, (i, r) ∉ secFilter enum s) :
    (processSector srt enum s sid st).store i = st.store i := by
  by_cases h : (secFilter enum s).length = 0
  · unfold processSector
    rw [if_pos h]
  · rw [processSector_spec srt hs enum s sid st h]
    have hd : i ∉ (srt (datedL enum s)).map (·.1) := by
      intro hmem
      rcases List.mem_map.mp hmem with ⟨p, hp, hpi⟩
      have hmd : p ∈ datedL enum s := ((hs _).1.mem_iff).mp hp
      have hsec : p ∈ secFilter enum s := (List.mem_filter.mp hmd).1
      apply hni p.2
      rw [← hpi, Prod.mk.eta]
      exact hsec
    have hu : i ∉ (pyShuffle ((undatedL enum s).map (·.1)) st.g).1 := by
      intro hmem
      have h2 : i ∈ (undatedL enum s).map (·.1) := (pyShuffle_perm _ _).mem_iff.mp hmem
      rcases List.mem_map.mp h2 with ⟨p, hp, hpi⟩
      have hsec : p ∈ secFilter enum s := (List.mem_filter.mp hp).1
      apply hni p.2
      rw [← hpi, Prod.mk.eta]
      exact hsec
    dsimp only
    split_ifs
    · show assignSeq _ _ _ _ i = st.store i
      rw [assignSeq_not_mem _ _ _ _ _ hu, assignSeq_not_mem _ _ _ _ _ hd]
    · show assignSeq _ _ _ _ i = st.store i
      rw [assignSeq_not_mem _ _ _ _ _ hd]

theorem secFilter_fst_nodup (enum : List IRow) (s : String)
    (hfstn : (enum.map (·.1)).Nodup) : ((secFilter enum s).map (·.1)).Nodup := by
  have h1 : (secFilter enum s).Sublist enum := List.filter_sublist enum
  exact List.Nodup.sublist (h1.map (fun p : IRow => p.1)) hfstn

theorem datedL_fst_nodup (enum : List IRow) (s : String)
    (hfstn : (enum.map (·.1)).Nodup) : ((datedL enum s).map (·.1)).Nodup := by
  have h1 : (datedL enum s).Sublist (secFilter enum s) := List.filter_sublist _
  exact List.Nodup.sublist (h1.map (fun p : IRow => p.1)) (secFilter_fst_nodup enum s hfstn)

theorem undatedL_fst_nodup (enum : List IRow) (s : String)
    (hfstn : (enum.map (·.1)).Nodup) : ((undatedL enum s).map (·.1)).Nodup := by
  have h1 : (undatedL enum s).Sublist (secFilter enum s) := List.filter_sublist _
  exact List.Nodup.sublist (h1.map (fun p : IRow => p.1)) (secFilter_fst_nodup enum s hfstn)

theorem srt_datedL_fst_nodup (srt : SortFn) (hs : SortsByDate srt) (enum : List IRow)
    (s : String) (hfstn : (enum.map (·.1)).Nodup) :
    ((srt (datedL enum s)).map (·.1)).Nodup :=
  (((hs _).1.map (·.1)).nodup_iff).mpr (datedL_fst_nodup enum s hfstn)

theorem processSector_store_dated (srt : SortFn) (hs : SortsByDate srt) (enum : List IRow)
    (s : String) (sid : Nat) (st : PState) (i : Nat) (r : Row) (k : Nat)
    (hfstn : (enum.map (·.1)).Nodup)
    (hk : (srt (datedL enum s))[k]? = some (i, r)) :
    (processSector srt enum s sid st).store i = fmtId sid (k + 1) := by
  have hmemS : (i, r) ∈ srt (datedL enum s) := List.getElem?_mem hk
  have hmemD : (i, r) ∈ datedL enum s := ((hs _).1.mem_iff).mp hmemS
  have hsec : (i, r) ∈ secFilter enum s := (List.mem_filter.mp hmemD).1
  have hdt : dated? (i, r) = true := (List.mem_filter.mp hmemD).2
  have hne : ¬ (secFilter enum s).length = 0 := by
    intro h0
    rw [List.length_eq_zero] at h0
    rw [h0] at hsec
    simp at hsec
  have hsecn : ((secFilter enum s).map (·.1)).Nodup := secFilter_fst_nodup enum s hfstn
  have hsrtn : ((srt (datedL enum s)).map (·.1)).Nodup := srt_datedL_fst_nodup srt hs enum s hfstn
  have hu : i ∉ (pyShuffle ((undatedL enum s).map (·.1)) st.g).1 := by
    intro hmem
    have h2 : i ∈ (undatedL enum s).map (·.1) := (pyShuffle_perm _ _).mem_iff.mp hmem
    rcases List.mem_map.mp h2 with ⟨q, hq, hqi⟩
    have hqsec : q ∈ secFilter enum s := (List.mem_filter.mp hq).1
    have hqnd : (! dated? q) = true := (List.mem_filter.mp hq).2
    have hqeq : q.2 = r := by
      apply fst_nodup_mem_inj hsecn _ hsec
      rw [← hqi, Prod.mk.eta]
      exact hqsec
    have : dated? q = true := by
      have : q = (i, r) := by
        rw [← hqi, ← hqeq]
      rw [this]
      exact hdt
    simp [this] at hqnd
  have hkm : ((srt (datedL enum s)).map (·.1))[k]? = some i := by
    rw [List.getElem?_map, hk]
    rfl
  rw [processSector_spec srt hs enum s sid st hne]
  dsimp only
  have hval := assignSeq_at sid ((srt (datedL enum s)).map (·.1)) 0 st.store k i hsrtn hkm
  rw [Nat.zero_add] at hval
  split_ifs
  · show assignSeq _ _ _ _ i = _
    rw [assignSeq_not_mem _ _ _ _ _ hu]
    exact hval
  · show assignSeq _ _ _ _ i = _
    exact hval

theorem processSector_store_undated (srt : SortFn) (hs : SortsByDate srt) (enum : List IRow)
    (s : String) (sid : Nat) (st : PState) (i : Nat) (r : Row) (k : Nat)
    (hfstn : (enum.map (·.1)).Nodup)
    (hmem : (i, r) ∈ undatedL enum s)
    (hk : (pyShuffle ((undatedL enum s).map (·.1)) st.g).1[k]? = some i) :
    (processSector srt enum s sid st).store i =
      fmtId sid ((datedL enum s).length + k + 1) := by
  have hsec : (i, r) ∈ secFilter enum s := (List.mem_filter.mp hmem).1
  have hne : ¬ (secFilter enum s).length = 0 := by
    intro h0
    rw [List.length_eq_zero] at h0
    rw [h0] at hsec
    simp at hsec
  have hupos : 0 < (undatedL enum s).length := List.length_pos_of_mem hmem
  have hshn : (pyShuffle ((undatedL enum s).map (·.1)) st.g).1.Nodup :=
    ((pyShuffle_perm _ _).nodup_iff).mpr (undatedL_fst_nodup enum s hfstn)
  rw [processSector_spec srt hs enum s sid st hne]
  dsimp only
  rw [if_pos hupos]
  show assignSeq _ _ _ _ i = _
  rw [show (srt (datedL enum s)).length = (datedL enum s).length from (hs _).1.length_eq]
  exact assignSeq_at sid ((pyShuffle ((undatedL enum s).map (·.1)) st.g).1)
    (datedL enum s).length (assignSeq sid 0 ((srt (datedL enum s)).map (·.1)) st.store)
    k i hshn hk

theorem processSectors_cons (srt : SortFn) (enum : List IRow) (s : String) (sid : Nat)
    (rest : List (String × Nat)) (st : PState) :
    processSectors srt enum ((s, sid) :: rest) st =
      processSectors srt enum rest (processSector srt enum s sid st) := rfl

theorem processSectors_store_frame (srt : SortFn) (hs : SortsByDate srt) (enum : List IRow)
    (m : List (String × Nat)) (st : PState) (i : Nat)
    (hni : ∀ sc ∈ m, ∀ r : Row, (i, r) ∉ secFilter enum sc.1) :
    (processSectors srt enum m st).store i = st.store i := by
  induction m generalizing st with
  | nil => rfl
  | cons sc rest ih =>
      obtain ⟨s2, sid2⟩ := sc
      rw [processSectors_cons]
      rw [ih _ (fun sc2 h2 => hni sc2 (List.mem_cons_of_mem _ h2))]
      exact processSector_store_frame srt hs enum s2 sid2 st i
        (hni (s2, sid2) (List.mem_cons_self _ _))

theorem processSectors_store_spec (srt : SortFn) (hs : SortsByDate srt) (enum : List IRow)
    (m : List (String × Nat)) (st : PState) (s : String) (sid : Nat) (i : Nat) (r : Row)
    (hfstn : (enum.map (·.1)).Nodup)
    (hsec : (i, r) ∈ secFilter enum s)
    (hm : (s, sid) ∈ m) (hmn : (m.map (·.1)).Nodup) :
    (dated? (i, r) = true →
      ∃ k, (srt (datedL enum s))[k]? = some (i, r) ∧ k < (datedL enum s).length ∧
        (processSectors srt enum m st).store i = fmtId sid (k + 1)) ∧
    (dated? (i, r) = false →
      ∃ (sh : List Nat) (k : Nat), sh.Perm ((undatedL enum s).map (·.1)) ∧ sh[k]? = some i ∧
        k < (undatedL enum s).length ∧
        (processSectors srt enum m st).store i =
          fmtId sid ((datedL enum s).length + k + 1)) := by
  revert hm hmn
  induction m generalizing st with
  | nil => intro hm _; simp at hm
  | cons sc rest ih =>
      intro hm hmn
      obtain ⟨s2, sid2⟩ := sc
      rcases List.mem_cons.mp hm with heq | hm2
      · injection heq with h1 h2
        subst h1
        subst h2
        have hrest : ∀ sc2 ∈ rest, ∀ r2 : Row, (i, r2) ∉ secFilter enum sc2.1 := by
          intro sc2 h2 r2 hmem2
          have hr2 : (i, r2) ∈ enum := ((mem_secFilter enum sc2.1 _).mp hmem2).1
          have hr : (i, r) ∈ enum := ((mem_secFilter enum s _).mp hsec).1
          have hre : r2 = r := fst_nodup_mem_inj hfstn hr2 hr
          have hss : r.sector = s := ((mem_secFilter enum s _).mp hsec).2
          have hs2 : r2.sector = sc2.1 := ((mem_secFilter enum sc2.1 _).mp hmem2).2
          simp only [List.map_cons, List.nodup_cons] at hmn
          apply hmn.1
          have : sc2.1 = s := by rw [← hs2, hre, hss]
          rw [← this]
          exact List.mem_map.mpr ⟨sc2, h2, rfl⟩
        rw [processSectors_cons]
        constructor
        · intro hdt
          have hmemD : (i, r) ∈ datedL enum s := List.mem_filter.mpr ⟨hsec, hdt⟩
          have hmemS : (i, r) ∈ srt (datedL enum s) := ((hs _).1.mem_iff).mpr hmemD
          rcases List.getElem?_of_mem hmemS with ⟨k, hk⟩
          refine ⟨k, hk, ?_, ?_⟩
          · have hlt : k < (srt (datedL enum s)).length := by
              rcases List.getElem?_eq_some.mp hk with ⟨hlt, -⟩
              exact hlt
            rwa [(hs _).1.length_eq] at hlt
          · rw [processSectors_store_frame srt hs enum rest _ i hrest]
            exact processSector_store_dated srt hs enum s sid st i r k hfstn hk
        · intro hdt
          have hmemU : (i, r) ∈ undatedL enum s :=
            List.mem_filter.mpr ⟨hsec, by simp [dated?] at hdt ⊢; simp [hdt]⟩
          have hshp : (pyShuffle ((undatedL enum s).map (·.1)) st.g).1.Perm
              ((undatedL enum s).map (·.1)) := pyShuffle_perm _ _
          have hmi : i ∈ (pyShuffle ((undatedL enum s).map (·.1)) st.g).1 :=
            hshp.mem_iff.mpr (List.mem_map.mpr ⟨(i, r), hmemU, rfl⟩)
          rcases List.getElem?_of_mem hmi with ⟨k, hk⟩
          refine ⟨(pyShuffle ((undatedL enum s).map (·.1)) st.g).1, k, hshp, hk, ?_, ?_⟩
          · have hlt : k < (pyShuffle ((undatedL enum s).map (·.1)) st.g).1.length := by
              rcases List.getElem?_eq_some.mp hk with ⟨hlt, -⟩
              exact hlt
            rwa [hshp.length_eq, List.length_map] at hlt
          · rw [processSectors_store_frame srt hs enum rest _ i hrest]
            exact processSector_store_undated srt hs enum s sid st i r k hfstn hmemU hk
      · have hmn2 : (rest.map (·.1)).Nodup := by
          simp only [List.map_cons, List.nodup_cons] at hmn
          exact hmn.2
        have hframe : ∀ r2 : Row, (i, r2) ∉ secFilter enum s2 := by
          intro r2 hmem2
          have hr2 : (i, r2) ∈ enum := ((mem_secFilter enum s2 _).mp hmem2).1
          have hr : (i, r) ∈ enum := ((mem_secFilter enum s _).mp hsec).1
          have hre : r2 = r := fst_nodup_mem_inj hfstn hr2 hr
          have hss : r.sector = s := ((mem_secFilter enum s _).mp hsec).2
          have hs2 : r2.sector = s2 := ((mem_secFilter enum s2 _).mp hmem2).2
          simp only [List.map_cons, List.nodup_cons] at hmn
          apply hmn.1
          have : s2 = s := by rw [← hs2, hre, hss]
          rw [this]
          exact List.mem_map.mpr ⟨(s, sid), hm2, rfl⟩
        rw [processSectors_cons]
        exact ih (processSector srt enum s2 sid2 st) hm2 hmn2

theorem pyShuffle_g (xs g : List Nat) : (pyShuffle xs g).2 = g.drop (xs.length - 1) :=
  (pyShuffleAux_gen (xs.length - 1) xs g g rfl).2.1

theorem pyShuffle_take (xs g1 g2 : List Nat)
    (h : g1.take (xs.length - 1) = g2.take (xs.length - 1)) :
    (pyShuffle xs g1).1 = (pyShuffle xs g2).1 :=
  (pyShuffleAux_gen (xs.length - 1) xs g1 g2 h).1

theorem processSector_g (srt : SortFn) (hs : SortsByDate srt) (enum : List IRow)
    (s : String) (sid : Nat) (st : PState) :
    (processSector srt enum s sid st).g = st.g.drop (consumeSec enum s) := by
  unfold consumeSec
  by_cases h : (secFilter enum s).length = 0
  · have hu : undatedL enum s = [] := by
      unfold undatedL
      rw [List.length_eq_zero.mp h]
      rfl
    unfold processSector
    rw [if_pos h, hu]
    show st.g = st.g.drop (([] : List IRow).length - 1)
    simp
  · rw [processSector_spec srt hs enum s sid st h]
    dsimp only
    split_ifs with h1
    · show (pyShuffle _ _).2 = _
      rw [pyShuffle_g, List.length_map]
    · show st.g = _
      have h0 : (undatedL enum s).length = 0 := by omega
      rw [h0]
      simp

theorem processSector_gen (srt : SortFn) (hs : SortsByDate srt) (enum : List IRow)
    (s : String) (sid : Nat) (st1 st2 : PState)
    (hstore : st1.store = st2.store) (hlog : st1.log = st2.log)
    (htake : st1.g.take (consumeSec enum s) = st2.g.take (consumeSec enum s)) :
    (processSector srt enum s sid st1).store = (processSector srt enum s sid st2).store ∧
    (processSector srt enum s sid st1).log = (processSector srt enum s sid st2).log := by
  by_cases h : (secFilter enum s).length = 0
  · unfold processSector
    rw [if_pos h, if_pos h]
    constructor
    · show st1.store = st2.store
      exact hstore
    · show st1.log ++ [LogEntry.processing s sid] ++ [LogEntry.noDocs s] =
        st2.log ++ [LogEntry.processing s sid] ++ [LogEntry.noDocs s]
      rw [hlog]
  · rw [processSector_spec srt hs enum s sid st1 h, processSector_spec srt hs enum s sid st2 h]
    dsimp only
    have hsh : (pyShuffle ((undatedL enum s).map (·.1)) st1.g).1 =
        (pyShuffle ((undatedL enum s).map (·.1)) st2.g).1 := by
      apply pyShuffle_take
      rw [List.length_map]
      exact htake
    split_ifs with h1
    · constructor
      · show assignSeq _ _ _ (assignSeq _ _ _ st1.store) = assignSeq _ _ _ (assignSeq _ _ _ st2.store)
        rw [hsh, hstore]
      · show st1.log ++ _ ++ _ = st2.log ++ _ ++ _
        rw [hsh, hlog]
    · constructor
      · show assignSeq _ _ _ st1.store = assignSeq _ _ _ st2.store
        rw [hstore]
      · show st1.log ++ _ = st2.log ++ _
        rw [hlog]

theorem processSectors_gen (srt : SortFn) (hs : SortsByDate srt) (enum : List IRow)
    (m : List (String × Nat)) (st1 st2 : PState)
    (hstore : st1.store = st2.store) (hlog : st1.log = st2.log)
    (htake : st1.g.take (consumeAll enum m) = st2.g.take (consumeAll enum m)) :
    (processSectors srt enum m st1).store = (processSectors srt enum m st2).store ∧
    (processSectors srt enum m st1).log = (processSectors srt enum m st2).log := by
  induction m generalizing st1 st2 with
  | nil => exact ⟨hstore, hlog⟩
  | cons sc rest ih =>
      obtain ⟨s2, sid2⟩ := sc
      have hca : consumeAll enum ((s2, sid2) :: rest) =
          consumeSec enum s2 + consumeAll enum rest := by
        unfold consumeAll
        simp
      rw [hca] at htake
      have h1 : st1.g.take (consumeSec enum s2) = st2.g.take (consumeSec enum s2) := by
        have hc := congrArg (List.take (consumeSec enum s2)) htake
        rwa [List.take_take, List.take_take,
          Nat.min_eq_left (Nat.le_add_right _ _)] at hc
      have h2 : (st1.g.drop (consumeSec enum s2)).take (consumeAll enum rest) =
          (st2.g.drop (consumeSec enum s2)).take (consumeAll enum rest) := by
        have hc := congrArg (List.drop (consumeSec enum s2)) htake
        rw [List.drop_take, List.drop_take] at hc
        have harith : consumeSec enum s2 + consumeAll enum rest - consumeSec enum s2 =
            consumeAll enum rest := by omega
        rwa [harith] at hc
      have hstep := processSector_gen srt hs enum s2 sid2 st1 st2 hstore hlog h1
      rw [processSectors_cons, processSectors_cons]
      apply ih _ _ hstep.1 hstep.2
      rw [processSector_g srt hs enum s2 sid2 st1, processSector_g srt hs enum s2 sid2 st2]
      exact h2

theorem logAssigned_sector (sid : Nat) (idxs : List Nat) : ∀ (start : Nat) (e : LogEntry),
    e ∈ logAssigned sid start idxs → logSector e = none := by
  induction idxs with
  | nil => intro start e h; simp [logAssigned] at h
  | cons j rest ih =>
      intro start e h
      unfold logAssigned at h
      rcases List.mem_cons.mp h with h1 | h2
      · rw [h1]
        rfl
      · exact ih (start + 1) e h2

theorem processSector_log_entries (srt : SortFn) (hs : SortsByDate srt) (enum : List IRow)
    (s : String) (sid : Nat) (st : PState) (e : LogEntry)
    (he : e ∈ (processSector srt enum s sid st).log) :
    e ∈ st.log ∨ logSector e = some s ∨ logSector e = none := by
  by_cases h : (secFilter enum s).length = 0
  · unfold processSector at he
    rw [if_pos h] at he
    have he2 : e ∈ st.log ++ [LogEntry.processing s sid] ++ [LogEntry.noDocs s] := he
    simp only [List.mem_append, List.mem_singleton] at he2
    rcases he2 with (h1 | h2) | h3
    · exact Or.inl h1
    · rw [h2]; exact Or.inr (Or.inl rfl)
    · rw [h3]; exact Or.inr (Or.inl rfl)
  · rw [processSector_spec srt hs enum s sid st h] at he
    dsimp only at he
    split_ifs at he with h1
    · have he2 : e ∈ st.log ++ LogEntry.processing s sid ::
          LogEntry.found s (secFilter enum s).length ::
          logAssigned sid 0 ((srt (datedL enum s)).map (·.1)) ++
          logAssigned sid (srt (datedL enum s)).length
            (pyShuffle ((undatedL enum s).map (·.1)) st.g).1 := he
      simp only [List.mem_append, List.mem_cons] at he2
      rcases he2 with (h1 | h2 | h3 | h4) | h5
      · exact Or.inl h1
      · rw [h2]; exact Or.inr (Or.inl rfl)
      · rw [h3]; exact Or.inr (Or.inl rfl)
      · exact Or.inr (Or.inr (logAssigned_sector _ _ _ _ h4))
      · exact Or.inr (Or.inr (logAssigned_sector _ _ _ _ h5))
    · have he2 : e ∈ st.log ++ LogEntry.processing s sid ::
          LogEntry.found s (secFilter enum s).length ::
          logAssigned sid 0 ((srt (datedL enum s)).map (·.1)) := he
      simp only [List.mem_append, List.mem_cons] at he2
      rcases he2 with h1 | h2 | h3 | h4
      · exact Or.inl h1
      · rw [h2]; exact Or.inr (Or.inl rfl)
      · rw [h3]; exact Or.inr (Or.inl rfl)
      · exact Or.inr (Or.inr (logAssigned_sector _ _ _ _ h4))

theorem processSectors_log_entries (srt : SortFn) (hs : SortsByDate srt) (enum : List IRow)
    (m : List (String × Nat)) (st : PState) (e : LogEntry)
    (he : e ∈ (processSectors srt enum m st).log) :
    e ∈ st.log ∨ (∃ sc ∈ m, logSector e = some sc.1) ∨ logSector e = none := by
  induction m generalizing st with
  | nil => exact Or.inl he
  | cons sc rest ih =>
      obtain ⟨s2, sid2⟩ := sc
      rw [processSectors_cons] at he
      rcases ih _ he with h1 | h2 | h3
      · rcases processSector_log_entries srt hs enum s2 sid2 st e h1 with ha | hb | hc
        · exact Or.inl ha
        · exact Or.inr (Or.inl ⟨(s2, sid2), by simp, hb⟩)
        · exact Or.inr (Or.inr hc)
      · rcases h2 with ⟨sc2, hsc2, hh⟩
        exact Or.inr (Or.inl ⟨sc2, List.mem_cons_of_mem _ hsc2, hh⟩)
      · exact Or.inr (Or.inr h3)

theorem create_unique_ids_getElem? (srt : SortFn) (g : List Nat) (rows : List Row) (i : Nat) :
    (create_unique_ids srt g rows).1[i]? =
      (rows[i]?).map (fun r => ⟨r, (processSectors srt (enumF 0 rows) sector_mapping
        ⟨fun _ => "", g, []⟩).store i⟩) := by
  show ((enumF 0 rows).map _)[i]? = _
  rw [List.getElem?_map, enumF_getElem?]
  cases rows[i]? <;> simp

theorem docIdAt_eq (srt : SortFn) (g : List Nat) (rows : List Row) (i : Nat) (r : Row)
    (hi : rows[i]? = some r) :
    docIdAt srt g rows i =
      (processSectors srt (enumF 0 rows) sector_mapping ⟨fun _ => "", g, []⟩).store i := by
  unfold docIdAt
  rw [create_unique_ids_getElem?, hi]
  rfl

theorem create_unique_ids_log (srt : SortFn) (g : List Nat) (rows : List Row) :
    (create_unique_ids srt g rows).2.2 =
      (processSectors srt (enumF 0 rows) sector_mapping ⟨fun _ => "", g, []⟩).log := rfl

theorem stableSortByDate_conforms : SortsByDate stableSortByDate := by
  intro l
  exact ⟨List.perm_insertionSort _ l, List.sorted_insertionSort _ l⟩

theorem swapTieSort_conforms : SortsByDate swapTieSort := by
  intro l
  refine ⟨List.perm_insertionSort _ l, ?_⟩
  have hsorted : (List.insertionSort tieRevLE l).Sorted tieRevLE :=
    List.sorted_insertionSort tieRevLE l
  exact hsorted.imp (fun h => by unfold tieRevLE at h; omega)

theorem orderedInsert_filter_key (k : Nat) (a : IRow) (l : List IRow) :
    (List.orderedInsert (fun p q => dkey p ≤ dkey q) a l).filter
        (fun p => decide (dkey p = k)) =
      ((a :: l).filter (fun p => decide (dkey p = k))) := by
  induction l with
  | nil => rfl
  | cons b t ih =>
      show (if dkey a ≤ dkey b then a :: b :: t
        else b :: List.orderedInsert (fun p q => dkey p ≤ dkey q) a t).filter _ = _
      by_cases hab : dkey a ≤ dkey b
      · rw [if_pos hab]
      · rw [if_neg hab]
        have hlt : dkey b < dkey a := Nat.lt_of_not_le hab
        by_cases hbk : dkey b = k
        · have hak : ¬ (dkey a = k) := by omega
          simp [List.filter_cons, hbk, hak, ih]
        · simp [List.filter_cons, hbk, ih]

theorem stableSortByDate_stable : StableSort stableSortByDate := by
  intro l k
  unfold stableSortByDate
  induction l with
  | nil => rfl
  | cons a t ih =>
      show (List.orderedInsert _ a (List.insertionSort _ t)).filter _ = _
      rw [orderedInsert_filter_key]
      simp only [List.filter_cons, ih]

theorem frame_of_sector (enum : List IRow) (hfstn : (enum.map (·.1)).Nodup) (s : String)
    (rest : List (String × Nat)) (hnotin : s ∉ rest.map (·.1)) (i : Nat) (r : Row)
    (hmem : (i, r) ∈ secFilter enum s) :
    ∀ sc2 ∈ rest, ∀ r2 : Row, (i, r2) ∉ secFilter enum sc2.1 := by
  intro sc2 h2 r2 hmem2
  have hr2 : (i, r2) ∈ enum := ((mem_secFilter enum sc2.1 _).mp hmem2).1
  have hr : (i, r) ∈ enum := ((mem_secFilter enum s _).mp hmem).1
  have hre : r2 = r := fst_nodup_mem_inj hfstn hr2 hr
  have hss : r.sector = s := ((mem_secFilter enum s _).mp hmem).2
  have hs2 : r2.sector = sc2.1 := ((mem_secFilter enum sc2.1 _).mp hmem2).2
  apply hnotin
  have heq : sc2.1 = s := by rw [← hs2, hre, hss]
  rw [← heq]
  exact List.mem_map.mpr ⟨sc2, h2, rfl⟩

theorem processSectors_sector_spec (srt : SortFn) (hs : SortsByDate srt) (enum : List IRow)
    (m : List (String × Nat)) (st : PState) (s : String) (sid : Nat)
    (hfstn : (enum.map (·.1)).Nodup)
    (hm : (s, sid) ∈ m) (hmn : (m.map (·.1)).Nodup) :
    ∃ sh : List Nat, sh.Perm ((undatedL enum s).map (·.1)) ∧
      (∀ (i : Nat) (r : Row) (k : Nat), (srt (datedL enum s))[k]? = some (i, r) →
        (processSectors srt enum m st).store i = fmtId sid (k + 1)) ∧
      (∀ (i k : Nat), sh[k]? = some i →
        (processSectors srt enum m st).store i =
          fmtId sid ((datedL enum s).length + k + 1)) := by
  revert hm hmn
  induction m generalizing st with
  | nil => intro hm _; simp at hm
  | cons sc rest ih =>
      intro hm hmn
      obtain ⟨s2, sid2⟩ := sc
      rcases List.mem_cons.mp hm with heq | hm2
      · injection heq with h1 h2
        subst h1
        subst h2
        simp only [List.map_cons, List.nodup_cons] at hmn
        refine ⟨(pyShuffle ((undatedL enum s).map (·.1)) st.g).1, pyShuffle_perm _ _, ?_, ?_⟩
        · intro i r k hk
          have hmemS : (i, r) ∈ srt (datedL enum s) := List.getElem?_mem hk
          have hmemD : (i, r) ∈ datedL enum s := ((hs _).1.mem_iff).mp hmemS
          have hsec : (i, r) ∈ secFilter enum s := (List.mem_filter.mp hmemD).1
          rw [processSectors_cons,
            processSectors_store_frame srt hs enum rest _ i
              (frame_of_sector enum hfstn s rest hmn.1 i r hsec)]
          exact processSector_store_dated srt hs enum s sid st i r k hfstn hk
        · intro i k hk
          have hmemSh : i ∈ (pyShuffle ((undatedL enum s).map (·.1)) st.g).1 :=
            List.getElem?_mem hk
          have hmemM : i ∈ (undatedL enum s).map (·.1) :=
            (pyShuffle_perm _ _).mem_iff.mp hmemSh
          rcases List.mem_map.mp hmemM with ⟨p, hp, hpi⟩
          have hmemU : (i, p.2) ∈ undatedL enum s := by
            rw [← hpi, Prod.mk.eta]
            exact hp
          have hsec : (i, p.2) ∈ secFilter enum s := (List.mem_filter.mp hmemU).1
          rw [processSectors_cons,
            processSectors_store_frame srt hs enum rest _ i
              (frame_of_sector enum hfstn s rest hmn.1 i p.2 hsec)]
          exact processSector_store_undated srt hs enum s sid st i p.2 k hfstn hmemU hk
      · have hmn2 : (rest.map (·.1)).Nodup := by
          simp only [List.map_cons, List.nodup_cons] at hmn
          exact hmn.2
        rw [processSectors_cons]
        exact ih (processSector srt enum s2 sid2 st) hm2 hmn2

theorem pad3_length_ge (l : List Char) : 3 ≤ (pad3 l).length := by
  unfold pad3
  split_ifs with h1 h2 h3
  · exact h1
  · simp only [List.length_cons]
    omega
  · simp only [List.length_cons]
    omega
  · simp only [List.length_cons]
    omega

theorem sector_mapping_pairwise :
    sector_mapping.Pairwise (fun a b => a.1 ≠ b.1 ∧ a.2 ≠ b.2) := by decide

theorem sector_mapping_code_inj {s1 s2 : String} {c1 c2 : Nat}
    (h1 : (s1, c1) ∈ sector_mapping) (h2 : (s2, c2) ∈ sector_mapping) :
    (s1 = s2 → c1 = c2) ∧ (s1 ≠ s2 → c1 ≠ c2) := by
  have hsym : Symmetric (fun a b : String × Nat => a.1 ≠ b.1 ∧ a.2 ≠ b.2) := by
    intro a b h
    exact ⟨h.1.symm, h.2.symm⟩
  have hp := sector_mapping_pairwise
  constructor
  · intro hse
    by_contra hne
    have hne2 : (s1, c1) ≠ (s2, c2) := by
      intro he
      injection he with a b
      exact hne b
    exact (List.Pairwise.forall hsym hp h1 h2 hne2).1 hse
  · intro hse hce
    have hne2 : (s1, c1) ≠ (s2, c2) := by
      intro he
      injection he with a b
      exact hse a
    exact (List.Pairwise.forall hsym hp h1 h2 hne2).2 hce

theorem sublist_pair_of_lt {α : Type} (l : List α) : ∀ (i j : Nat) (x y : α), i < j →
    l[i]? = some x → l[j]? = some y → [x, y].Sublist l := by
  induction l with
  | nil => intro i j x y _ hi _; simp at hi
  | cons a t ih =>
      intro i j x y hij hi hj
      cases i with
      | zero =>
          simp only [List.getElem?_cons_zero, Option.some.injEq] at hi
          cases j with
          | zero => omega
          | succ m =>
              simp only [List.getElem?_cons_succ] at hj
              have hy : y ∈ t := List.getElem?_mem hj
              rw [← hi]
              exact (List.singleton_sublist.mpr hy).cons₂ a
      | succ n =>
          cases j with
          | zero => omega
          | succ m =>
              simp only [List.getElem?_cons_succ] at hi hj
              exact (ih n m x y (by omega) hi hj).cons a

theorem pair_sublist_positions {α : Type} : ∀ (l1 l2 : List α), l1.Sublist l2 →
    ∀ (x y : α), l1 = [x, y] →
      ∃ (i j : Nat), i < j ∧ l2[i]? = some x ∧ l2[j]? = some y := by
  intro l1 l2 h
  induction h with
  | slnil => intro x y he; simp at he
  | cons a h ih =>
      intro x y he
      rcases ih x y he with ⟨i, j, hij, hi, hj⟩
      exact ⟨i + 1, j + 1, by omega, by simpa using hi, by simpa using hj⟩
  | cons₂ a h ih =>
      intro x y he
      injection he with h1 h2
      subst h2
      have hy : y ∈ _ := List.singleton_sublist.mp h
      rcases List.getElem?_of_mem hy with ⟨m, hm⟩
      refine ⟨0, m + 1, by omega, ?_, by simpa using hm⟩
      simp [h1]

theorem getElem?_inj_nodup {α : Type} {l : List α} (hnd : l.Nodup) {a b : Nat} {v : α}
    (ha : l[a]? = some v) (hb : l[b]? = some v) : a = b := by
  have hlt : a < l.length := by
    rcases List.getElem?_eq_some.mp ha with ⟨h, -⟩
    exact h
  exact List.getElem?_inj hlt hnd (by rw [ha, hb])

/-- C4: for every mapped category, `create_unique_ids` assigns the dated
records sequence numbers `1..D` so that strictly earlier parsed dates get
strictly smaller sequence numbers, and assigns the undated records sequence
numbers `D+1..D+U`, so every undated record's sequence number exceeds every
dated record's. -/
theorem c4_sequence_allocation (srt : SortFn) (hs : SortsByDate srt) (g : List Nat)
    (rows : List Row) (s : String) (c : Nat) (hm : (s, c) ∈ sector_mapping)
    (i j : Nat) (ri rj : Row)
    (hi : rows[i]? = some ri) (hj : rows[j]? = some rj)
    (hsi : ri.sector = s) (hsj : rj.sector = s) :
    (dated? (i, ri) = true →
        docIdAt srt g rows i = fmtId c (docSeqAt srt g rows i) ∧
        1 ≤ docSeqAt srt g rows i ∧ docSeqAt srt g rows i ≤ datedCount rows s ∧
        (dated? (j, rj) = true → dkey (i, ri) < dkey (j, rj) →
          docSeqAt srt g rows i < docSeqAt srt g rows j)) ∧
    (dated? (i, ri) = false →
        docIdAt srt g rows i = fmtId c (docSeqAt srt g rows i) ∧
        datedCount rows s + 1 ≤ docSeqAt srt g rows i ∧
        docSeqAt srt g rows i ≤ datedCount rows s + undatedCount rows s ∧
        (dated? (j, rj) = true → docSeqAt srt g rows j < docSeqAt srt g rows i)) := by
  have hfstn := enumF_fst_nodup rows 0
  have hmn : (sector_mapping.map (·.1)).Nodup := by decide
  have henumi : (i, ri) ∈ enumF 0 rows := (enumF_mem_zero rows i ri).mpr hi
  have henumj : (j, rj) ∈ enumF 0 rows := (enumF_mem_zero rows j rj).mpr hj
  have hseci : (i, ri) ∈ secFilter (enumF 0 rows) s := (mem_secFilter _ _ _).mpr ⟨henumi, hsi⟩
  have hsecj : (j, rj) ∈ secFilter (enumF 0 rows) s := (mem_secFilter _ _ _).mpr ⟨henumj, hsj⟩
  have hspi := processSectors_store_spec srt hs (enumF 0 rows) sector_mapping
    ⟨fun _ => "", g, []⟩ s c i ri hfstn hseci hm hmn
  have hspj := processSectors_store_spec srt hs (enumF 0 rows) sector_mapping
    ⟨fun _ => "", g, []⟩ s c j rj hfstn hsecj hm hmn
  have hDeq : datedCount rows s = (datedL (enumF 0 rows) s).length := rfl
  have hUeq : undatedCount rows s = (undatedL (enumF 0 rows) s).length := rfl
  constructor
  · intro hdi
    rcases hspi.1 hdi with ⟨ki, hki, hklt, hsto⟩
    have hid : docIdAt srt g rows i = fmtId c (ki + 1) := by
      rw [docIdAt_eq srt g rows i ri hi, hsto]
    have hseq : docSeqAt srt g rows i = ki + 1 := by
      unfold docSeqAt
      rw [hid, seqNat_fmtId]
    refine ⟨by rw [hid, hseq], by omega, by omega, ?_⟩
    intro hdj hlt
    rcases hspj.1 hdj with ⟨kj, hkj, hkjlt, hstoj⟩
    have hidj : docIdAt srt g rows j = fmtId c (kj + 1) := by
      rw [docIdAt_eq srt g rows j rj hj, hstoj]
    have hseqj : docSeqAt srt g rows j = kj + 1 := by
      unfold docSeqAt
      rw [hidj, seqNat_fmtId]
    have hkikj : ki < kj → docSeqAt srt g rows i < docSeqAt srt g rows j := by omega
    apply hkikj
    have hsorted := (hs (datedL (enumF 0 rows) s)).2
    by_contra hnot
    push_neg at hnot
    rcases Nat.eq_or_lt_of_le hnot with heqk | hltk
    · have hsome : (some (i, ri) : Option IRow) = some (j, rj) := by
        rw [← hki, ← hkj, heqk]
      have hpeq : ((i, ri) : IRow) = (j, rj) := by
        injection hsome
      injection hpeq with ha hb
      subst ha
      rw [hb] at hlt
      omega
    · rcases List.getElem?_eq_some.mp hki with ⟨hkib, hkig⟩
      rcases List.getElem?_eq_some.mp hkj with ⟨hkjb, hkjg⟩
      have hrel := hsorted.rel_get_of_lt
        (a := ⟨kj, hkjb⟩) (b := ⟨ki, hkib⟩) (by exact hltk)
      simp only [List.get_eq_getElem, hkig, hkjg] at hrel
      omega
  · intro hdi
    rcases hspi.2 hdi with ⟨sh, ki, hperm, hki, hklt, hsto⟩
    have hid : docIdAt srt g rows i = fmtId c ((datedL (enumF 0 rows) s).length + ki + 1) := by
      rw [docIdAt_eq srt g rows i ri hi, hsto]
    have hseq : docSeqAt srt g rows i = (datedL (enumF 0 rows) s).length + ki + 1 := by
      unfold docSeqAt
      rw [hid, seqNat_fmtId]
    refine ⟨by rw [hid, hseq], by omega, by omega, ?_⟩
    intro hdj
    rcases hspj.1 hdj with ⟨kj, hkj, hkjlt, hstoj⟩
    have hidj : docIdAt srt g rows j = fmtId c (kj + 1) := by
      rw [docIdAt_eq srt g rows j rj hj, hstoj]
    have hseqj : docSeqAt srt g rows j = kj + 1 := by
      unfold docSeqAt
      rw [hidj, seqNat_fmtId]
    omega

/-- C4 witness: on a concrete three-record sector (dates 01.01.2020 and
15.06.2019, one undated record), the 15.06.2019 record precedes the
01.01.2020 record, and the undated record comes after both; its identifier
has the `{code}.{seq:03d}` shape. -/
theorem c4_witness :
    docSeqAt stableSortByDate [] wRows 1 < docSeqAt stableSortByDate [] wRows 0 ∧
    docSeqAt stableSortByDate [] wRows 0 < docSeqAt stableSortByDate [] wRows 2 ∧
    docIdAt stableSortByDate [] wRows 2 = fmtId 1 (docSeqAt stableSortByDate [] wRows 2) := by
  have h1 := c4_sequence_allocation stableSortByDate stableSortByDate_conforms [] wRows
    "Doprava" 1 (by decide) 1 0 _ _ rfl rfl rfl rfl
  have h2 := c4_sequence_allocation stableSortByDate stableSortByDate_conforms [] wRows
    "Doprava" 1 (by decide) 2 0 _ _ rfl rfl rfl rfl
  refine ⟨(h1.1 (by decide)).2.2.2 (by decide) (by decide), ?_, (h2.2 (by decide)).1⟩
  exact (h2.2 (by decide)).2.2.2 (by decide)

/-- C5: every Document_ID assigned to a record of a mapped category has the
form `{code}.{seq:03d}` — sequence at least 1, zero-padded to a minimum
width of 3 with its value preserved (no truncation for values ≥ 1000) — and
the assigned identifiers are pairwise distinct across the whole dataset,
within and across categories. -/
theorem c5_id_format_unique (srt : SortFn) (hs : SortsByDate srt) (g : List Nat)
    (rows : List Row) :
    (∀ (i : Nat) (ri : Row) (c : Nat), rows[i]? = some ri →
      (ri.sector, c) ∈ sector_mapping →
      ∃ k : Nat, 1 ≤ k ∧ docIdAt srt g rows i = fmtId c k ∧
        seqNat (docIdAt srt g rows i) = k ∧ codeNat (docIdAt srt g rows i) = c ∧
        3 ≤ (pad3 (natDecimal k)).length ∧ digitsVal (pad3 (natDecimal k)) = k) ∧
    (∀ (i j : Nat) (ri rj : Row) (ci cj : Nat),
      rows[i]? = some ri → rows[j]? = some rj → i ≠ j →
      (ri.sector, ci) ∈ sector_mapping → (rj.sector, cj) ∈ sector_mapping →
      docIdAt srt g rows i ≠ docIdAt srt g rows j) := by
  have hfstn := enumF_fst_nodup rows 0
  have hmn : (sector_mapping.map (·.1)).Nodup := by decide
  constructor
  · intro i ri c hi hmem
    have henumi : (i, ri) ∈ enumF 0 rows := (enumF_mem_zero rows i ri).mpr hi
    have hseci : (i, ri) ∈ secFilter (enumF 0 rows) ri.sector :=
      (mem_secFilter _ _ _).mpr ⟨henumi, rfl⟩
    have hsp := processSectors_store_spec srt hs (enumF 0 rows) sector_mapping
      ⟨fun _ => "", g, []⟩ ri.sector c i ri hfstn hseci hmem hmn
    cases hdt : dated? (i, ri) with
    | true =>
        rcases hsp.1 hdt with ⟨ki, -, -, hsto⟩
        refine ⟨ki + 1, by omega, ?_, ?_, ?_, pad3_length_ge _, ?_⟩
        · rw [docIdAt_eq srt g rows i ri hi, hsto]
        · rw [docIdAt_eq srt g rows i ri hi, hsto, seqNat_fmtId]
        · rw [docIdAt_eq srt g rows i ri hi, hsto, codeNat_fmtId]
        · rw [digitsVal_pad3, digitsVal_natDecimal]
    | false =>
        rcases hsp.2 hdt with ⟨sh, ki, -, -, -, hsto⟩
        refine ⟨(datedL (enumF 0 rows) ri.sector).length + ki + 1, by omega, ?_, ?_, ?_,
          pad3_length_ge _, ?_⟩
        · rw [docIdAt_eq srt g rows i ri hi, hsto]
        · rw [docIdAt_eq srt g rows i ri hi, hsto, seqNat_fmtId]
        · rw [docIdAt_eq srt g rows i ri hi, hsto, codeNat_fmtId]
        · rw [digitsVal_pad3, digitsVal_natDecimal]
  · intro i j ri rj ci cj hi hj hij hmi hmj
    have henumi : (i, ri) ∈ enumF 0 rows := (enumF_mem_zero rows i ri).mpr hi
    have henumj : (j, rj) ∈ enumF 0 rows := (enumF_mem_zero rows j rj).mpr hj
    by_cases hss : ri.sector = rj.sector
    · have hcc : ci = cj := by
        have := (sector_mapping_code_inj hmi hmj).1
        exact this hss
      subst hcc
      rw [← hss] at hmj
      set s := ri.sector with hsdef
      set enum := enumF 0 rows with henumdef
      have hseci : (i, ri) ∈ secFilter enum s := (mem_secFilter _ _ _).mpr ⟨henumi, rfl⟩
      have hsecj : (j, rj) ∈ secFilter enum s := (mem_secFilter _ _ _).mpr ⟨henumj, hss.symm⟩
      rcases processSectors_sector_spec srt hs enum sector_mapping ⟨fun _ => "", g, []⟩
        s ci hfstn hmi hmn with ⟨sh, hperm, hdated, hundated⟩
      have hsrtnodup : (srt (datedL enum s)).Nodup :=
        List.Nodup.of_map (·.1) (srt_datedL_fst_nodup srt hs enum s hfstn)
      have hshnodup : sh.Nodup :=
        (hperm.nodup_iff).mpr (undatedL_fst_nodup enum s hfstn)
      rw [docIdAt_eq srt g rows i ri hi, docIdAt_eq srt g rows j rj hj]
      cases hdi : dated? (i, ri) with
      | true =>
          have hmemDi : (i, ri) ∈ srt (datedL enum s) :=
            ((hs _).1.mem_iff).mpr (List.mem_filter.mpr ⟨hseci, hdi⟩)
          rcases List.getElem?_of_mem hmemDi with ⟨ki, hki⟩
          rw [hdated i ri ki hki]
          cases hdj : dated? (j, rj) with
          | true =>
              have hmemDj : (j, rj) ∈ srt (datedL enum s) :=
                ((hs _).1.mem_iff).mpr (List.mem_filter.mpr ⟨hsecj, hdj⟩)
              rcases List.getElem?_of_mem hmemDj with ⟨kj, hkj⟩
              rw [hdated j rj kj hkj]
              intro hcontra
              have hk : ki = kj := by
                have := (fmtId_inj _ _ _ _ hcontra).2
                omega
              rw [hk, hkj] at hki
              have : (j, rj) = (i, ri) := by injection hki
              injection this with ha _
              exact hij ha.symm
          | false =>
              have hmemUj : (j, rj) ∈ undatedL enum s :=
                List.mem_filter.mpr ⟨hsecj, by simp [hdj]⟩
              have hjsh : j ∈ sh :=
                hperm.mem_iff.mpr (List.mem_map.mpr ⟨(j, rj), hmemUj, rfl⟩)
              rcases List.getElem?_of_mem hjsh with ⟨kj, hkj⟩
              rw [hundated j kj hkj]
              intro hcontra
              have hseqs := (fmtId_inj _ _ _ _ hcontra).2
              have hkilt : ki < (srt (datedL enum s)).length := by
                rcases List.getElem?_eq_some.mp hki with ⟨h, -⟩
                exact h
              rw [(hs _).1.length_eq] at hkilt
              omega
      | false =>
          have hmemUi : (i, ri) ∈ undatedL enum s :=
            List.mem_filter.mpr ⟨hseci, by simp [hdi]⟩
          have hish : i ∈ sh :=
            hperm.mem_iff.mpr (List.mem_map.mpr ⟨(i, ri), hmemUi, rfl⟩)
          rcases List.getElem?_of_mem hish with ⟨ki, hki⟩
          rw [hundated i ki hki]
          cases hdj : dated? (j, rj) with
          | true =>
              have hmemDj : (j, rj) ∈ srt (datedL enum s) :=
                ((hs _).1.mem_iff).mpr (List.mem_filter.mpr ⟨hsecj, hdj⟩)
              rcases List.getElem?_of_mem hmemDj with ⟨kj, hkj⟩
              rw [hdated j rj kj hkj]
              intro hcontra
              have hseqs := (fmtId_inj _ _ _ _ hcontra).2
              have hkjlt : kj < (srt (datedL enum s)).length := by
                rcases List.getElem?_eq_some.mp hkj with ⟨h, -⟩
                exact h
              rw [(hs _).1.length_eq] at hkjlt
              omega
          | false =>
              have hmemUj : (j, rj) ∈ undatedL enum s :=
                List.mem_filter.mpr ⟨hsecj, by simp [hdj]⟩
              have hjsh : j ∈ sh :=
                hperm.mem_iff.mpr (List.mem_map.mpr ⟨(j, rj), hmemUj, rfl⟩)
              rcases List.getElem?_of_mem hjsh with ⟨kj, hkj⟩
              rw [hundated j kj hkj]
              intro hcontra
              have hseqs := (fmtId_inj _ _ _ _ hcontra).2
              have hk : ki = kj := by omega
              rw [hk, hkj] at hki
              have : j = i := by injection hki
              exact hij this.symm
    · have hcc : ci ≠ cj := (sector_mapping_code_inj hmi hmj).2 hss
      have hseci : (i, ri) ∈ secFilter (enumF 0 rows) ri.sector :=
        (mem_secFilter _ _ _).mpr ⟨henumi, rfl⟩
      have hsecj : (j, rj) ∈ secFilter (enumF 0 rows) rj.sector :=
        (mem_secFilter _ _ _).mpr ⟨henumj, rfl⟩
      have hspi := processSectors_store_spec srt hs (enumF 0 rows) sector_mapping
        ⟨fun _ => "", g, []⟩ ri.sector ci i ri hfstn hseci hmi hmn
      have hspj := processSectors_store_spec srt hs (enumF 0 rows) sector_mapping
        ⟨fun _ => "", g, []⟩ rj.sector cj j rj hfstn hsecj hmj hmn
      rw [docIdAt_eq srt g rows i ri hi, docIdAt_eq srt g rows j rj hj]
      have hgi : ∃ ka : Nat, (processSectors srt (enumF 0 rows) sector_mapping
          ⟨fun _ => "", g, []⟩).store i = fmtId ci ka := by
        cases hdi : dated? (i, ri) with
        | true => rcases hspi.1 hdi with ⟨ki, -, -, hsto⟩; exact ⟨ki + 1, hsto⟩
        | false => rcases hspi.2 hdi with ⟨sh, ki, -, -, -, hsto⟩; exact ⟨_, hsto⟩
      have hgj : ∃ kb : Nat, (processSectors srt (enumF 0 rows) sector_mapping
          ⟨fun _ => "", g, []⟩).store j = fmtId cj kb := by
        cases hdj : dated? (j, rj) with
        | true => rcases hspj.1 hdj with ⟨kj, -, -, hsto⟩; exact ⟨kj + 1, hsto⟩
        | false => rcases hspj.2 hdj with ⟨sh, kj, -, -, -, hsto⟩; exact ⟨_, hsto⟩
      rcases hgi with ⟨ka, hka⟩
      rcases hgj with ⟨kb, hkb⟩
      rw [hka, hkb]
      intro hcontra
      exact hcc (fmtId_inj _ _ _ _ hcontra).1

/-- C5 witness: on the concrete three-record dataset the three identifiers
are pairwise distinct. -/
theorem c5_witness :
    docIdAt stableSortByDate [] wRows 0 ≠ docIdAt stableSortByDate [] wRows 1 ∧
    docIdAt stableSortByDate [] wRows 2 ≠ docIdAt stableSortByDate [] wRows 0 := by
  have h := c5_id_format_unique stableSortByDate stableSortByDate_conforms [] wRows
  exact ⟨h.2 0 1 _ _ 1 1 rfl rfl (by decide) (by decide) (by decide),
         h.2 2 0 _ _ 1 1 rfl rfl (by decide) (by decide) (by decide)⟩

/-- C3 counterexample: the claim "ties retain original input order" fails on
the code as written.  `sort_values` is called with the default
`kind='quicksort'`, whose tie order is not guaranteed; `swapTieSort` is a
sort satisfying everything pandas guarantees of it (`SortsByDate`), under
which two equal-date records of one sector come out in REVERSED input
order: the first input record receives sequence 2 and the second
sequence 1. -/
theorem c3_tie_break_counterexample :
    SortsByDate swapTieSort ∧
    (create_unique_ids swapTieSort [] c3rows).1.map (·.documentId) = ["1.002", "1.001"] :=
  ⟨swapTieSort_conforms, by decide⟩

/-- C3 amended: WHEN the sort used for `sort_values` is stable (as e.g.
`kind='stable'` would be — the default `quicksort` kind does not guarantee
it), two dated records of one mapped category with equal parsed dates
retain their original relative order in the assigned sequence numbers. -/
theorem c3_stable_sort_tie_break (srt : SortFn) (hs : SortsByDate srt)
    (hstable : StableSort srt) (g : List Nat) (rows : List Row) (s : String) (c : Nat)
    (hm : (s, c) ∈ sector_mapping) (i j : Nat) (ri rj : Row)
    (hi : rows[i]? = some ri) (hj : rows[j]? = some rj)
    (hsi : ri.sector = s) (hsj : rj.sector = s)
    (hdi : dated? (i, ri) = true) (hdj : dated? (j, rj) = true)
    (heq : dkey (i, ri) = dkey (j, rj)) (hij : i < j) :
    docSeqAt srt g rows i < docSeqAt srt g rows j := by
  have hfstn := enumF_fst_nodup rows 0
  have hmn : (sector_mapping.map (·.1)).Nodup := by decide
  have henumi : (enumF 0 rows)[i]? = some (i, ri) := by
    rw [enumF_getElem?, hi]
    simp
  have henumj : (enumF 0 rows)[j]? = some (j, rj) := by
    rw [enumF_getElem?, hj]
    simp
  have hpairSub : [(i, ri), (j, rj)].Sublist (enumF 0 rows) :=
    sublist_pair_of_lt (enumF 0 rows) i j _ _ hij henumi henumj
  have h1 : [(i, ri), (j, rj)].Sublist (secFilter (enumF 0 rows) s) := by
    have hf := hpairSub.filter (fun p => decide (p.2.sector = s))
    rwa [show ([((i, ri) : IRow), (j, rj)].filter (fun p => decide (p.2.sector = s))) =
      [(i, ri), (j, rj)] from by simp [List.filter_cons, hsi, hsj]] at hf
  have h2 : [(i, ri), (j, rj)].Sublist (datedL (enumF 0 rows) s) := by
    have hf := h1.filter dated?
    rwa [show ([((i, ri) : IRow), (j, rj)].filter dated?) = [(i, ri), (j, rj)] from by
      simp [List.filter_cons, hdi, hdj]] at hf
  have h3 : [(i, ri), (j, rj)].Sublist
      ((datedL (enumF 0 rows) s).filter (fun p => decide (dkey p = dkey (i, ri)))) := by
    have hf := h2.filter (fun p => decide (dkey p = dkey (i, ri)))
    rwa [show ([((i, ri) : IRow), (j, rj)].filter
        (fun p => decide (dkey p = dkey (i, ri)))) = [(i, ri), (j, rj)] from by
      simp [List.filter_cons, heq.symm]] at hf
  rw [← hstable (datedL (enumF 0 rows) s) (dkey (i, ri))] at h3
  have h4 : [(i, ri), (j, rj)].Sublist (srt (datedL (enumF 0 rows) s)) :=
    h3.trans (List.filter_sublist _)
  rcases pair_sublist_positions _ _ h4 (i, ri) (j, rj) rfl with ⟨ki, kj, hkij, hki, hkj⟩
  have hsrtnodup : (srt (datedL (enumF 0 rows) s)).Nodup :=
    List.Nodup.of_map (·.1) (srt_datedL_fst_nodup srt hs (enumF 0 rows) s hfstn)
  have hseci : (i, ri) ∈ secFilter (enumF 0 rows) s :=
    (mem_secFilter _ _ _).mpr ⟨List.getElem?_mem henumi, hsi⟩
  have hsecj : (j, rj) ∈ secFilter (enumF 0 rows) s :=
    (mem_secFilter _ _ _).mpr ⟨List.getElem?_mem henumj, hsj⟩
  have hspi := processSectors_store_spec srt hs (enumF 0 rows) sector_mapping
    ⟨fun _ => "", g, []⟩ s c i ri hfstn hseci hm hmn
  have hspj := processSectors_store_spec srt hs (enumF 0 rows) sector_mapping
    ⟨fun _ => "", g, []⟩ s c j rj hfstn hsecj hm hmn
  rcases hspi.1 hdi with ⟨ki2, hki2, -, hstoi⟩
  rcases hspj.1 hdj with ⟨kj2, hkj2, -, hstoj⟩
  have hkieq : ki2 = ki := getElem?_inj_nodup hsrtnodup hki2 hki
  have hkjeq : kj2 = kj := getElem?_inj_nodup hsrtnodup hkj2 hkj
  have hseqi : docSeqAt srt g rows i = ki2 + 1 := by
    unfold docSeqAt
    rw [docIdAt_eq srt g rows i ri hi, hstoi, seqNat_fmtId]
  have hseqj : docSeqAt srt g rows j = kj2 + 1 := by
    unfold docSeqAt
    rw [docIdAt_eq srt g rows j rj hj, hstoj, seqNat_fmtId]
  omega

/-- C3 witness: with a stable conforming sort, the two equal-date records of
`c3rows` keep their input order. -/
theorem c3_witness :
    docSeqAt stableSortByDate [] c3rows 0 < docSeqAt stableSortByDate [] c3rows 1 :=
  c3_stable_sort_tie_break stableSortByDate stableSortByDate_conforms
    stableSortByDate_stable [] c3rows "Doprava" 1 (by decide) 0 1 _ _ rfl rfl rfl rfl
    (by decide) (by decide) (by decide) (by decide)

/-- C1 counterexample: the claim says an unmapped category is surfaced as a
configuration error "reporting which category and how many records were
affected".  On `c1rows` (two records of the unmapped category "Z" and one
Doprava record) the function returns normally, no line of its console trace
mentions "Z" (so nothing is reported), the "Z" records are merely left with
an empty Document_ID, and the Doprava record is processed. -/
theorem c1_unknown_category_counterexample :
    ((create_unique_ids stableSortByDate [] c1rows).2.2.all
      (fun e => decide (logSector e ≠ some "Z"))) = true ∧
    (create_unique_ids stableSortByDate [] c1rows).1.map (·.documentId) =
      ["", "", "1.001"] := by
  decide

/-- C1 amended: a category present in the input but absent from the mapping
is skipped SILENTLY: its records are excluded from identifier assignment
(their Document_ID stays the empty string) and no console line mentions the
category — no error is surfaced and no count is reported — while every
record of a mapped category still receives a well-formed identifier. -/
theorem c1_unknown_category_silently_skipped (srt : SortFn) (hs : SortsByDate srt)
    (g : List Nat) (rows : List Row) (i : Nat) (ri : Row)
    (hi : rows[i]? = some ri) :
    (ri.sector ∉ sector_mapping.map (·.1) →
      docIdAt srt g rows i = "" ∧
      ∀ e ∈ (create_unique_ids srt g rows).2.2, logSector e ≠ some ri.sector) ∧
    (∀ c : Nat, (ri.sector, c) ∈ sector_mapping →
      ∃ k : Nat, 1 ≤ k ∧ docIdAt srt g rows i = fmtId c k ∧
        docIdAt srt g rows i ≠ "") := by
  have hfstn := enumF_fst_nodup rows 0
  have hmn : (sector_mapping.map (·.1)).Nodup := by decide
  have henumi : (i, ri) ∈ enumF 0 rows := (enumF_mem_zero rows i ri).mpr hi
  constructor
  · intro hnm
    have hni : ∀ sc ∈ sector_mapping, ∀ r2 : Row, (i, r2) ∉ secFilter (enumF 0 rows) sc.1 := by
      intro sc hsc r2 hmem2
      have hr2 : (i, r2) ∈ enumF 0 rows := ((mem_secFilter _ sc.1 _).mp hmem2).1
      have hre : r2 = ri := fst_nodup_mem_inj hfstn hr2 henumi
      have hs2 : r2.sector = sc.1 := ((mem_secFilter _ sc.1 _).mp hmem2).2
      apply hnm
      rw [← hre, hs2]
      exact List.mem_map.mpr ⟨sc, hsc, rfl⟩
    constructor
    · rw [docIdAt_eq srt g rows i ri hi]
      exact processSectors_store_frame srt hs (enumF 0 rows) sector_mapping _ i hni
    · intro e he
      rw [create_unique_ids_log] at he
      rcases processSectors_log_entries srt hs (enumF 0 rows) sector_mapping _ e he with
        h1 | h2 | h3
      · simp at h1
      · rcases h2 with ⟨sc, hsc, hlogs⟩
        rw [hlogs]
        intro hcontra
        apply hnm
        have : sc.1 = ri.sector := by injection hcontra
        rw [← this]
        exact List.mem_map.mpr ⟨sc, hsc, rfl⟩
      · rw [h3]
        intro hcontra
        cases hcontra
  · intro c hmem
    have hseci : (i, ri) ∈ secFilter (enumF 0 rows) ri.sector :=
      (mem_secFilter _ _ _).mpr ⟨henumi, rfl⟩
    have hsp := processSectors_store_spec srt hs (enumF 0 rows) sector_mapping
      ⟨fun _ => "", g, []⟩ ri.sector c i ri hfstn hseci hmem hmn
    cases hdt : dated? (i, ri) with
    | true =>
        rcases hsp.1 hdt with ⟨ki, -, -, hsto⟩
        refine ⟨ki + 1, by omega, ?_, ?_⟩
        · rw [docIdAt_eq srt g rows i ri hi, hsto]
        · rw [docIdAt_eq srt g rows i ri hi, hsto]
          exact fmtId_ne_empty _ _
    | false =>
        rcases hsp.2 hdt with ⟨sh, ki, -, -, -, hsto⟩
        refine ⟨(datedL (enumF 0 rows) ri.sector).length + ki + 1, by omega, ?_, ?_⟩
        · rw [docIdAt_eq srt g rows i ri hi, hsto]
        · rw [docIdAt_eq srt g rows i ri hi, hsto]
          exact fmtId_ne_empty _ _

/-- C1 witness: on `c1rows` the unmapped "Z" record keeps an empty
Document_ID while the mapped Doprava record gets a non-empty one. -/
theorem c1_witness :
    docIdAt stableSortByDate [] c1rows 0 = "" ∧
    docIdAt stableSortByDate [] c1rows 2 ≠ "" := by
  have h0 := c1_unknown_category_silently_skipped stableSortByDate
    stableSortByDate_conforms [] c1rows 0 _ rfl
  have h2 := c1_unknown_category_silently_skipped stableSortByDate
    stableSortByDate_conforms [] c1rows 2 _ rfl
  refine ⟨(h0.1 (by decide)).1, ?_⟩
  rcases h2.2 1 (by decide) with ⟨k, -, -, hne⟩
  exact hne

/-- C2 counterexample: `create_unique_ids` takes no seed parameter; its
shuffle draws from the module-global `random` generator, which advances
across calls.  Two back-to-back runs on the same two-undated-record input —
the second starting from the generator state the first one left behind —
assign different Document_IDs, so repeated runs are not reproducible. -/
theorem c2_global_rng_counterexample :
    (create_unique_ids stableSortByDate [0, 1] c2rows).1.map (·.documentId) ≠
      ((create_unique_ids stableSortByDate
        (create_unique_ids stableSortByDate [0, 1] c2rows).2.1 c2rows).1.map
          (·.documentId)) := by
  decide

/-- C2 amended: the output is a deterministic function of the input rows and
of the ambient generator state, and depends only on the prefix of the
stream the run consumes (`U - 1` draws per mapped category with `U ≥ 1`
undated records): two runs whose initial generator states agree on that
prefix produce identical rows with identical Document_IDs and identical
console traces.  Reproducibility therefore requires restoring the global
generator state externally; it cannot be requested through the call. -/
theorem c2_rng_prefix_determinism (srt : SortFn) (hs : SortsByDate srt) (g1 g2 : List Nat)
    (rows : List Row) (h : g1.take (drawCount rows) = g2.take (drawCount rows)) :
    (create_unique_ids srt g1 rows).1 = (create_unique_ids srt g2 rows).1 ∧
    (create_unique_ids srt g1 rows).2.2 = (create_unique_ids srt g2 rows).2.2 := by
  have hd : drawCount rows = consumeAll (enumF 0 rows) sector_mapping := rfl
  rw [hd] at h
  have hgen := processSectors_gen srt hs (enumF 0 rows) sector_mapping
    ⟨fun _ => "", g1, []⟩ ⟨fun _ => "", g2, []⟩ rfl rfl h
  constructor
  · show (enumF 0 rows).map _ = (enumF 0 rows).map _
    simp only [hgen.1]
  · exact hgen.2

/-- C2 witness: two runs over generator streams that agree on the single
consumed draw coincide. -/
theorem c2_witness :
    (create_unique_ids stableSortByDate [0, 5] c2rows).1 =
      (create_unique_ids stableSortByDate [0, 7] c2rows).1 :=
  (c2_rng_prefix_determinism stableSortByDate stableSortByDate_conforms [0, 5] [0, 7]
    c2rows (by decide)).1

theorem walkPage_rows_invariant (sector : String) : ∀ (nodes : List PageNode) (st : WalkState)
    (hinv : (st.rows.map rowKey).Nodup ∧ ∀ k ∈ st.rows.map rowKey, k ∈ st.seen)
    (st' : WalkState), walkPage sector nodes st = Except.ok st' →
    (st'.rows.map rowKey).Nodup ∧ ∀ k ∈ st'.rows.map rowKey, k ∈ st'.seen := by
  intro nodes
  induction nodes with
  | nil =>
      intro st hinv st' h
      injection h with h
      rw [← h]
      exact hinv
  | cons n rest ih =>
      intro st hinv st' h
      cases n with
      | h4 t => exact ih st hinv st' h
      | h5 t =>
          cases t with
          | error e => exact Except.noConfusion h
          | ok txt => exact ih { st with lastProject := txt } hinv st' h
      | a an =>
          simp only [walkPage] at h
          cases han : an.text with
          | error e =>
              rw [han] at h
              exact Except.noConfusion h
          | ok ltext =>
              rw [han] at h
              dsimp only at h
              by_cases hpdf : is_pdf_link an.href ltext
              · rw [if_pos hpdf] at h
                cases hpar : (match an.parent with | some t => t | none => Except.ok "") with
                | error e =>
                    rw [hpar] at h
                    exact Except.noConfusion h
                | ok ptext =>
                    rw [hpar] at h
                    dsimp only at h
                    cases hext : extract_date_and_size an with
                    | error e =>
                        rw [hext] at h
                        exact Except.noConfusion h
                    | ok ds =>
                        rw [hext] at h
                        dsimp only at h
                        by_cases hseen : (sector, st.lastProject,
                            urljoin BASE (an.href.getD "")) ∈ st.seen
                        · rw [if_pos hseen] at h
                          exact ih st hinv st' h
                        · rw [if_neg hseen] at h
                          apply ih _ _ st' h
                          constructor
                          · rw [List.map_append]
                            rw [List.nodup_append]
                            refine ⟨hinv.1, by simp, ?_⟩
                            intro k hk
                            simp only [List.map_cons, List.map_nil, List.mem_singleton]
                            intro hkey
                            apply hseen
                            rw [← show rowKey ⟨sector, st.lastProject,
                              determine_document_type ltext ptext,
                              urljoin BASE (an.href.getD ""),
                              (ds.1.map String.mk).getD "", (ds.2.map String.mk).getD ""⟩ =
                              (sector, st.lastProject, urljoin BASE (an.href.getD ""))
                              from rfl, ← hkey]
                            exact hinv.2 k hk
                          · intro k hk
                            rw [List.map_append] at hk
                            rcases List.mem_append.mp hk with h1 | h2
                            · exact List.mem_cons_of_mem _ (hinv.2 k h1)
                            · simp only [List.map_cons, List.map_nil,
                                List.mem_singleton] at h2
                              rw [h2]
                              exact List.mem_cons_self _ _
              · rw [if_neg hpdf] at h
                exact ih st hinv st' h

/-- C6: for every page node sequence, the record list emitted by
`scrape_sector_page` contains no two records sharing the same
(category, project, url) triple — a link whose deduplication key was
already seen is discarded without being emitted and without error. -/
theorem c6_dedup_invariant (sector : String) (nodes : List PageNode) :
    (scrape_sector_page sector nodes).Pairwise
      (fun r1 r2 => ¬ (r1.sector = r2.sector ∧ r1.projectName = r2.projectName ∧
        r1.url = r2.url)) := by
  unfold scrape_sector_page
  cases hw : walkPage sector nodes ⟨"UNKNOWN_PROJECT", [], []⟩ with
  | error e => exact List.Pairwise.nil
  | ok st' =>
      have hinv := walkPage_rows_invariant sector nodes ⟨"UNKNOWN_PROJECT", [], []⟩
        ⟨by simp, by simp⟩ st' hw
      have hnd : (st'.rows.map rowKey).Nodup := hinv.1
      have hpw := (List.pairwise_map).mp hnd
      apply hpw.imp
      intro a b hne hcontra
      apply hne
      show (a.sector, a.projectName, a.url) = (b.sector, b.projectName, b.url)
      rw [hcontra.1, hcontra.2.1, hcontra.2.2]

theorem mapE_error_of_faulty : ∀ (l : List SibNode), (∃ x ∈ l, sibFaulty x = true) →
    mapE sibText l = Except.error () := by
  intro l
  induction l with
  | nil => intro h; rcases h with ⟨x, hx, -⟩; simp at hx
  | cons a t ih =>
      intro h
      rcases h with ⟨x, hx, hf⟩
      rcases List.mem_cons.mp hx with rfl | hx2
      · cases x with
        | tag te =>
            cases te with
            | error e => rfl
            | ok s => simp [sibFaulty, isErr] at hf
        | navString s => simp [sibFaulty] at hf
      · unfold mapE
        cases hfx : sibText a with
        | error e => rfl
        | ok t2 =>
            rw [ih ⟨x, hx2, hf⟩]

theorem mapE_ok_of_clean : ∀ (l : List SibNode), (∀ x ∈ l, sibFaulty x = false) →
    ∃ ts, mapE sibText l = Except.ok ts := by
  intro l
  induction l with
  | nil => intro _; exact ⟨[], rfl⟩
  | cons a t ih =>
      intro h
      have ha : sibFaulty a = false := h a (List.mem_cons_self _ _)
      have hat : ∃ sa, sibText a = Except.ok sa := by
        cases a with
        | tag te =>
            cases te with
            | error e => simp [sibFaulty, isErr] at ha
            | ok s => exact ⟨s.data, rfl⟩
        | navString s => exact ⟨pyStrip s.data, rfl⟩
      rcases hat with ⟨sa, hsa⟩
      rcases ih (fun x hx => h x (List.mem_cons_of_mem _ hx)) with ⟨ts, hts⟩
      refine ⟨sa :: ts, ?_⟩
      unfold mapE
      rw [hsa, hts]

theorem extract_error_of_fault (an : ANode)
    (hf : ((an.prevSibs.take 12).any sibFaulty || (an.nextSibs.take 6).any sibFaulty) = true) :
    extract_date_and_size an = Except.error () := by
  unfold extract_date_and_size
  rcases Bool.or_eq_true_iff.mp hf with h1 | h2
  · rcases List.any_eq_true.mp h1 with ⟨x, hx, hfx⟩
    rw [mapE_error_of_faulty (an.prevSibs.take 12) ⟨x, hx, hfx⟩]
  · cases hm : mapE sibText (an.prevSibs.take 12) with
    | error e => rfl
    | ok prev =>
        rcases List.any_eq_true.mp h2 with ⟨x, hx, hfx⟩
        rw [mapE_error_of_faulty (an.nextSibs.take 6) ⟨x, hx, hfx⟩]

theorem extract_ok_of_clean (an : ANode)
    (hf : ((an.prevSibs.take 12).any sibFaulty || (an.nextSibs.take 6).any sibFaulty) = false) :
    ∃ ds, extract_date_and_size an = Except.ok ds := by
  unfold extract_date_and_size
  rcases Bool.or_eq_false_iff.mp hf with ⟨h1, h2⟩
  have hc1 : ∀ x ∈ an.prevSibs.take 12, sibFaulty x = false := by
    intro x hx
    by_contra hcon
    rw [List.any_eq_true.mpr ⟨x, hx, by simpa using hcon⟩] at h1
    exact Bool.noConfusion h1
  have hc2 : ∀ x ∈ an.nextSibs.take 6, sibFaulty x = false := by
    intro x hx
    by_contra hcon
    rw [List.any_eq_true.mpr ⟨x, hx, by simpa using hcon⟩] at h2
    exact Bool.noConfusion h2
  rcases mapE_ok_of_clean _ hc1 with ⟨ts1, hts1⟩
  rcases mapE_ok_of_clean _ hc2 with ⟨ts2, hts2⟩
  rw [hts1, hts2]
  exact ⟨_, rfl⟩

theorem walkPage_error_of_faulty (sector : String) : ∀ (nodes : List PageNode)
    (st : WalkState), (∃ n ∈ nodes, faultyNode n = true) →
    walkPage sector nodes st = Except.error () := by
  intro nodes
  induction nodes with
  | nil => intro st h; rcases h with ⟨n, hn, -⟩; simp at hn
  | cons n rest ih =>
      intro st h
      rcases h with ⟨n2, hn2, hf⟩
      rcases List.mem_cons.mp hn2 with rfl | hrest
      · -- the head node itself is faulty
        cases n2 with
        | h4 t => simp [faultyNode] at hf
        | h5 t =>
            cases t with
            | error e => rfl
            | ok s => simp [faultyNode, isErr] at hf
        | a an =>
            simp only [walkPage]
            cases han : an.text with
            | error e => rfl
            | ok ltext =>
                simp only [faultyNode] at hf
                rw [han] at hf
                dsimp only
                have hf2 : (is_pdf_link an.href ltext &&
                    ((match an.parent with | some t => isErr t | none => false) ||
                     (an.prevSibs.take 12).any sibFaulty ||
                     (an.nextSibs.take 6).any sibFaulty)) = true := hf
                rcases Bool.and_eq_true_iff.mp hf2 with ⟨hpdf, h2⟩
                rw [if_pos hpdf]
                cases hp : an.parent with
                | none =>
                    rw [hp] at h2
                    have hsib : ((an.prevSibs.take 12).any sibFaulty ||
                        (an.nextSibs.take 6).any sibFaulty) = true := by
                      simpa using h2
                    dsimp only
                    rw [extract_error_of_fault an hsib]
                | some te =>
                    cases te with
                    | error e => rfl
                    | ok s =>
                        rw [hp] at h2
                        have hsib : ((an.prevSibs.take 12).any sibFaulty ||
                            (an.nextSibs.take 6).any sibFaulty) = true := by
                          simpa [isErr] using h2
                        dsimp only
                        rw [extract_error_of_fault an hsib]
      · -- a deeper node is faulty: show the head step either errors or recurses
        cases n with
        | h4 t => exact ih st ⟨n2, hrest, hf⟩
        | h5 t =>
            cases t with
            | error e => rfl
            | ok s => exact ih _ ⟨n2, hrest, hf⟩
        | a an =>
            simp only [walkPage]
            cases han : an.text with
            | error e => rfl
            | ok ltext =>
                dsimp only
                by_cases hpdf : is_pdf_link an.href ltext
                · rw [if_pos hpdf]
                  cases hpar : (match an.parent with
                      | some t => t | none => Except.ok "") with
                  | error e => rfl
                  | ok ptext =>
                      dsimp only
                      cases hext : extract_date_and_size an with
                      | error e => rfl
                      | ok ds =>
                          dsimp only
                          by_cases hseen : (sector, st.lastProject,
                              urljoin BASE (an.href.getD "")) ∈ st.seen
                          · rw [if_pos hseen]
                            exact ih st ⟨n2, hrest, hf⟩
                          · rw [if_neg hseen]
                            exact ih _ ⟨n2, hrest, hf⟩
                · rw [if_neg hpdf]
                  exact ih st ⟨n2, hrest, hf⟩

/-- C9 counterexample: on `c9nodes` — a page whose second PDF anchor has an
in-window sibling raising on `get_text` — the page walk ABORTS:
`scrape_sector_page` returns `[]`, dropping even the record of the earlier
good anchor, whereas the claim (failure treated as "no usable text", walk
continues) would give the same two records as the run in which the faulty
read is replaced by empty text. -/
theorem c9_abort_counterexample :
    scrape_sector_page "Obrana" c9nodes = [] ∧
    (scrape_sector_page "Obrana" c9nodesIsolated).length = 2 := by
  constructor
  · rfl
  · rfl

/-- C9 amended: a text-read failure on any processed node — a minor
heading's text, an anchor's own text, or (for PDF-candidate anchors) the
parent's or an in-window sibling's text — is NOT isolated to that node: it
propagates to the page-level exception handler and `scrape_sector_page`
returns `[]`, discarding every record of that page.  (The `try/except`
blocks inside `extract_date_and_size` shield only the anchor's own and
parent text there, and the main loop reads both unprotected first.) -/
theorem c9_text_failure_aborts (sector : String) (nodes : List PageNode)
    (h : nodes.any faultyNode = true) :
    scrape_sector_page sector nodes = [] := by
  rcases List.any_eq_true.mp h with ⟨n, hn, hf⟩
  unfold scrape_sector_page
  rw [walkPage_error_of_faulty sector nodes _ ⟨n, hn, hf⟩]

/-- C9 witness: the faulty-sibling page aborts to an empty record list. -/
theorem c9_witness : scrape_sector_page "Obrana" c9nodes = [] :=
  c9_text_failure_aborts "Obrana" c9nodes (by decide)

/-- C7: `determine_document_type` (both scraper variants) lower-cases the
space-joined link text and parent context and returns the label of the
first keyword of its fixed ordered list occurring as a substring — list
order, not position in the text, decides — and when no keyword matches it
falls back to the raw link text, truncated to its first 50 characters with
the `"..."` marker appended exactly when the text exceeds 50 characters. -/
theorem c7_classifier (linkText parentText : String) :
    determine_document_type linkText parentText =
      (firstLabel keywordPairs (pyLower (linkText.data ++ ' ' :: parentText.data))).getD
        (truncFallback linkText) ∧
    determine_document_type_fixed linkText parentText =
      (firstLabel keywordPairsFixed (pyLower (linkText.data ++ ' ' :: parentText.data))).getD
        (truncFallback linkText) ∧
    (linkText.data.length > 50 →
      truncFallback linkText = String.mk (linkText.data.take 50 ++ "...".data)) ∧
    (¬ linkText.data.length > 50 → truncFallback linkText = linkText) := by
  refine ⟨?_, ?_, ?_, ?_⟩
  · unfold determine_document_type
    simp only [keywordPairs, firstLabel]
    cases h0 : isSubB "hodnotenie".data (pyLower (linkText.data ++ ' ' :: parentText.data)) with
    | true => simp
    | false =>
        cases h1 : isSubB "analýza".data (pyLower (linkText.data ++ ' ' :: parentText.data)) with
        | true => simp
        | false =>
            cases h2 : isSubB "analyza".data (pyLower (linkText.data ++ ' ' :: parentText.data)) with
            | true => simp
            | false =>
                cases h3 : isSubB "štúdia uskutočniteľnosti".data (pyLower (linkText.data ++ ' ' :: parentText.data)) with
                | true => simp
                | false =>
                    cases h4 : isSubB "aktualizácia".data (pyLower (linkText.data ++ ' ' :: parentText.data)) with
                    | true => simp
                    | false =>
                        cases h5 : isSubB "stanovisko".data (pyLower (linkText.data ++ ' ' :: parentText.data)) with
                        | true => simp
                        | false =>
                            cases h6 : isSubB "správa".data (pyLower (linkText.data ++ ' ' :: parentText.data)) with
                            | true => simp
                            | false =>
                                cases h7 : isSubB "metodika".data (pyLower (linkText.data ++ ' ' :: parentText.data)) with
                                | true => simp
                                | false =>
                                    cases h8 : isSubB "zmluva".data (pyLower (linkText.data ++ ' ' :: parentText.data)) with
                                    | true => simp
                                    | false =>
                                        cases h9 : isSubB "dohoda".data (pyLower (linkText.data ++ ' ' :: parentText.data)) with
                                        | true => simp
                                        | false =>
                                            cases h10 : isSubB "investičný zámer".data (pyLower (linkText.data ++ ' ' :: parentText.data)) with
                                            | true => simp
                                            | false =>
                                                simp
  · unfold determine_document_type_fixed
    simp only [keywordPairsFixed, keywordPairs, List.dropLast, firstLabel]
    cases h0 : isSubB "hodnotenie".data (pyLower (linkText.data ++ ' ' :: parentText.data)) with
    | true => simp
    | false =>
        cases h1 : isSubB "analýza".data (pyLower (linkText.data ++ ' ' :: parentText.data)) with
        | true => simp
        | false =>
            cases h2 : isSubB "analyza".data (pyLower (linkText.data ++ ' ' :: parentText.data)) with
            | true => simp
            | false =>
                cases h3 : isSubB "štúdia uskutočniteľnosti".data (pyLower (linkText.data ++ ' ' :: parentText.data)) with
                | true => simp
                | false =>
                    cases h4 : isSubB "aktualizácia".data (pyLower (linkText.data ++ ' ' :: parentText.data)) with
                    | true => simp
                    | false =>
                        cases h5 : isSubB "stanovisko".data (pyLower (linkText.data ++ ' ' :: parentText.data)) with
                        | true => simp
                        | false =>
                            cases h6 : isSubB "správa".data (pyLower (linkText.data ++ ' ' :: parentText.data)) with
                            | true => simp
                            | false =>
                                cases h7 : isSubB "metodika".data (pyLower (linkText.data ++ ' ' :: parentText.data)) with
                                | true => simp
                                | false =>
                                    cases h8 : isSubB "zmluva".data (pyLower (linkText.data ++ ' ' :: parentText.data)) with
                                    | true => simp
                                    | false =>
                                        cases h9 : isSubB "dohoda".data (pyLower (linkText.data ++ ' ' :: parentText.data)) with
                                        | true => simp
                                        | false =>
                                            simp
  · intro h
    unfold truncFallback
    rw [if_pos h]
  · intro h
    unfold truncFallback
    rw [if_neg h]

theorem matchUnitAux_mem : ∀ (alts : List (List Char)) (l u rem : List Char),
    matchUnitAux alts l = some (u, rem) → u ∈ alts := by
  intro alts
  induction alts with
  | nil => intro l u rem h; exact Option.noConfusion h
  | cons a as ih =>
      intro l u rem h
      unfold matchUnitAux at h
      split_ifs at h with hc
      · injection h with hpair
        have ha : a = u := congrArg Prod.fst hpair
        rw [← ha]
        exact List.mem_cons_self _ _
      · exact List.mem_cons_of_mem _ (ih l u rem h)

theorem sizeTail_decomp (r t rem : List Char)
    (h : sizeTailWith (matchUnitAux unitAlts) r = some (t, rem)) :
    ∃ sp u, t = sp ++ u ∧ (∀ c ∈ sp, c.isWhitespace = true) ∧ u ∈ unitAlts := by
  simp only [sizeTailWith] at h
  cases hum : matchUnitAux unitAlts (r.dropWhile Char.isWhitespace) with
  | none => rw [hum] at h; exact Option.noConfusion h
  | some p =>
      obtain ⟨u2, rem2⟩ := p
      rw [hum] at h
      injection h with hpair
      have ht : r.takeWhile Char.isWhitespace ++ u2 = t := congrArg Prod.fst hpair
      refine ⟨r.takeWhile Char.isWhitespace, u2, ht.symm, ?_, matchUnitAux_mem _ _ _ _ hum⟩
      intro c hc
      exact List.mem_takeWhile_imp hc

theorem fracTryW_decomp (d r1 m : List Char)
    (h : fracTryW (matchUnitAux unitAlts) d r1 = some m) :
    ∃ (sep : Char) (fd sp u : List Char), (sep = '.' ∨ sep = ',') ∧ fd ≠ [] ∧
      (∀ c ∈ fd, isDigitC c = true) ∧ (∀ c ∈ sp, c.isWhitespace = true) ∧ u ∈ unitAlts ∧
      m = d ++ (sep :: fd) ++ (sp ++ u) := by
  cases r1 with
  | nil => exact Option.noConfusion h
  | cons sep r2 =>
      simp only [fracTryW] at h
      split_ifs at h with hsep hfd
      cases hst : sizeTailWith (matchUnitAux unitAlts) (r2.dropWhile isDigitC) with
      | none => rw [hst] at h; exact Option.noConfusion h
      | some p =>
          obtain ⟨t, rem⟩ := p
          rw [hst] at h
          injection h with hm
          rcases sizeTail_decomp _ _ _ hst with ⟨sp, u, htsu, hsp, hu⟩
          refine ⟨sep, r2.takeWhile isDigitC, sp, u, hsep, ?_, ?_, hsp, hu, ?_⟩
          · intro hcon
            apply hfd
            rw [hcon]
            rfl
          · intro c hc
            exact List.mem_takeWhile_imp hc
          · rw [← hm, htsu]

theorem matchSizeWith_decomp (prev : Option Char) (l0 m : List Char)
    (h : matchSizeWith (matchUnitAux unitAlts) prev l0 = some m) :
    ∃ d f sp u, m = d ++ f ++ sp ++ u ∧ d ≠ [] ∧ (∀ c ∈ d, isDigitC c = true) ∧
      (f = [] ∨ ∃ (sep : Char) (fd : List Char), (sep = '.' ∨ sep = ',') ∧ fd ≠ [] ∧
        (∀ c ∈ fd, isDigitC c = true) ∧ f = sep :: fd) ∧
      (∀ c ∈ sp, c.isWhitespace = true) ∧ u ∈ unitAlts := by
  simp only [matchSizeWith] at h
  split_ifs at h with hwb hde
  have hdigits : ∀ c ∈ l0.takeWhile isDigitC, isDigitC c = true := by
    intro c hc
    exact List.mem_takeWhile_imp hc
  have hdne : l0.takeWhile isDigitC ≠ [] := by
    intro hcon
    apply hde
    rw [hcon]
    rfl
  cases hft : fracTryW (matchUnitAux unitAlts) (l0.takeWhile isDigitC)
      (l0.dropWhile isDigitC) with
  | some m2 =>
      rw [hft] at h
      injection h with hm
      rcases fracTryW_decomp _ _ _ hft with ⟨sep, fd, sp, u, hsep, hfdne, hfdd, hsp, hu, hm2⟩
      refine ⟨l0.takeWhile isDigitC, sep :: fd, sp, u, ?_, hdne, hdigits,
        Or.inr ⟨sep, fd, hsep, hfdne, hfdd, rfl⟩, hsp, hu⟩
      rw [← hm, hm2]
      simp
  | none =>
      rw [hft] at h
      cases hst : sizeTailWith (matchUnitAux unitAlts) (l0.dropWhile isDigitC) with
      | none => rw [hst] at h; exact Option.noConfusion h
      | some p =>
          obtain ⟨t, rem⟩ := p
          rw [hst] at h
          injection h with hm
          rcases sizeTail_decomp _ _ _ hst with ⟨sp, u, htsu, hsp, hu⟩
          refine ⟨l0.takeWhile isDigitC, [], sp, u, ?_, hdne, hdigits, Or.inl rfl, hsp, hu⟩
          rw [← hm, htsu]
          simp

theorem scanSearch_from (f : Option Char → List Char → Option (List Char)) (l : List Char)
    (m : List Char) : ∀ (n i : Nat), l.length - i ≤ n →
    scanSearch f (if i = 0 then none else l[i - 1]?) (l.drop i) = some m →
    ∃ i0, i ≤ i0 ∧ f (if i0 = 0 then none else l[i0 - 1]?) (l.drop i0) = some m ∧
      ∀ j, i ≤ j → j < i0 → f (if j = 0 then none else l[j - 1]?) (l.drop j) = none := by
  intro n
  induction n with
  | zero =>
      intro i hn h
      have hd : l.drop i = [] := List.drop_eq_nil_of_le (by omega)
      rw [hd] at h
      exact Option.noConfusion h
  | succ n2 ih =>
      intro i hn h
      cases hdrop : l.drop i with
      | nil =>
          rw [hdrop] at h
          exact Option.noConfusion h
      | cons c rest =>
          rw [hdrop] at h
          unfold scanSearch at h
          cases hf : f (if i = 0 then none else l[i - 1]?) (c :: rest) with
          | some m2 =>
              rw [hf] at h
              injection h with hm
              refine ⟨i, Nat.le_refl i, ?_, ?_⟩
              · rw [hdrop, hf, hm]
              · intro j h1 h2
                omega
          | none =>
              rw [hf] at h
              have hi_lt : i < l.length := by
                by_contra hge
                rw [List.drop_eq_nil_of_le (by omega)] at hdrop
                exact List.noConfusion hdrop
              have hci : l[i]? = some c := by
                have hg := List.getElem?_drop l i 0
                rw [hdrop] at hg
                simpa using hg.symm
              have hrest : l.drop (i + 1) = rest := by
                have hdd : l.drop (i + 1) = (l.drop i).drop 1 := by
                  rw [List.drop_drop]
                rw [hdd, hdrop]
                rfl
              have h2 : scanSearch f (if i + 1 = 0 then none else l[(i + 1) - 1]?)
                  (l.drop (i + 1)) = some m := by
                rw [hrest]
                simpa [hci] using h
              rcases ih (i + 1) (by omega) h2 with ⟨i0, hge, hfi0, hnone⟩
              refine ⟨i0, by omega, hfi0, ?_⟩
              intro j hj1 hj2
              rcases Nat.eq_or_lt_of_le hj1 with heq | hj3
              · rw [← heq, hdrop, hf]
              · exact hnone j (by omega) hj2

/-- C8 counterexample: the claim says the unit token is matched
case-insensitively, so any capitalization (e.g. `Mb`) is recognized.  The
code's `size_re` alternation `kB|KB|MB|GB|B|kb|mb|gb` omits the mixed
capitalizations: on `"5 Mb"` the code's search finds nothing, while the
claim's case-insensitive reading finds `"5 Mb"`. -/
theorem c8_size_pattern_counterexample :
    sizeSearch "5 Mb".data = none ∧ sizeSearchCI "5 Mb".data = some "5 Mb".data := by
  constructor
  · rfl
  · rfl

/-- C8 amended: the size search returns the leftmost substring of the form
digits, optional fractional separator `.` or `,` with digits, optional
whitespace, and a unit token drawn LITERALLY from the alternation
kB|KB|MB|GB|B|kb|mb|gb (mixed capitalizations such as `Mb`, `Kb`, `mB`,
`Gb` and bare `b` are not recognized): any returned match decomposes
accordingly, and it comes from the first position at which the pattern
matches. -/
theorem c8_size_pattern (l m : List Char) (h : sizeSearch l = some m) :
    (∃ d f sp u, m = d ++ f ++ sp ++ u ∧ d ≠ [] ∧ (∀ c ∈ d, isDigitC c = true) ∧
      (f = [] ∨ ∃ (sep : Char) (fd : List Char), (sep = '.' ∨ sep = ',') ∧ fd ≠ [] ∧
        (∀ c ∈ fd, isDigitC c = true) ∧ f = sep :: fd) ∧
      (∀ c ∈ sp, c.isWhitespace = true) ∧ u ∈ unitAlts) ∧
    (∃ i : Nat, matchPos l i = some m ∧ ∀ j, j < i → matchPos l j = none) := by
  have hs : scanSearch (matchSizeWith (matchUnitAux unitAlts))
      (if 0 = 0 then none else l[0 - 1]?) (l.drop 0) = some m := by
    simpa [sizeSearch] using h
  rcases scanSearch_from _ l m l.length 0 (by omega) hs with ⟨i0, -, hfi0, hnone⟩
  constructor
  · exact matchSizeWith_decomp _ _ _ hfi0
  · refine ⟨i0, hfi0, ?_⟩
    intro j hj
    exact hnone j (by omega) hj

/-- C8 witness: on `"x 2,5 MB"` the search returns `"2,5 MB"`, which
decomposes per the pattern and is the leftmost match. -/
theorem c8_witness :
    (∃ d f sp u, "2,5 MB".data = d ++ f ++ sp ++ u ∧ d ≠ [] ∧
      (∀ c ∈ d, isDigitC c = true) ∧
      (f = [] ∨ ∃ (sep : Char) (fd : List Char), (sep = '.' ∨ sep = ',') ∧ fd ≠ [] ∧
        (∀ c ∈ fd, isDigitC c = true) ∧ f = sep :: fd) ∧
      (∀ c ∈ sp, c.isWhitespace = true) ∧ u ∈ unitAlts) ∧
    (∃ i : Nat, matchPos "x 2,5 MB".data i = some "2,5 MB".data ∧
      ∀ j, j < i → matchPos "x 2,5 MB".data j = none) :=
  c8_size_pattern "x 2,5 MB".data "2,5 MB".data (by decide)
